import Mathlib

/-!
Verification development for the devopsys orchestration engine.

Shallow embedding notes:
* Python strings are modelled as Lean `String`/`List Char`; `str.lower` is
  modelled for ASCII and the Cyrillic block actually used by the keyword
  tables; `str.strip` and friends use the ASCII whitespace set.
* Python `json` values are modelled by `JValue`; numbers are modelled as
  integers (the code under verification only inspects booleans, strings,
  arrays and objects of its JSON payloads).
* Filesystem state is modelled explicitly (lists of directories and files);
  `Path.resolve` is modelled as lexical normalisation, which matches the
  symlink-free directories the orchestrator allocates.
* Generative backends (LLM calls), `ast.parse` and sandboxed subprocesses are
  modelled as explicit oracle parameters: the code under verification treats
  them as opaque text-producing collaborators.
-/

namespace Devopsys

/-- The literal brace characters, kept as named constants. -/
def lbrace : Char := Char.ofNat 123

def rbrace : Char := Char.ofNat 125

/-- ASCII whitespace set used by Python `str.strip` / `\s` (space, tab,
newline, carriage return, vertical tab, form feed). -/
def isPyWs (c : Char) : Bool :=
  c = ' ' || c = '\t' || c = '\n' || c = '\r' || c = Char.ofNat 11 || c = Char.ofNat 12

/-- Word characters for Python `\w` / `\b`: ASCII alphanumerics, underscore,
and the Cyrillic letters appearing in the keyword tables. -/
def isWordChar (c : Char) : Bool :=
  (('a' ≤ c && c ≤ 'z') || ('A' ≤ c && c ≤ 'Z') || ('0' ≤ c && c ≤ '9') || c = '_'
    || (Char.ofNat 0x0410 ≤ c && c ≤ Char.ofNat 0x044F)
    || c = Char.ofNat 0x0401 || c = Char.ofNat 0x0451)

/-- `str.lower`, modelled for ASCII letters and the Cyrillic block. -/
def pyLowerChar (c : Char) : Char :=
  if 'A' ≤ c && c ≤ 'Z' then Char.ofNat (c.toNat + 32)
  else if Char.ofNat 0x0410 ≤ c && c ≤ Char.ofNat 0x042F then Char.ofNat (c.toNat + 32)
  else if c = Char.ofNat 0x0401 then Char.ofNat 0x0451
  else c

/-- `str.upper`, modelled for ASCII letters (only used for the `FROM `
prefix check). -/
def pyUpperChar (c : Char) : Char :=
  if 'a' ≤ c && c ≤ 'z' then Char.ofNat (c.toNat - 32) else c

def pyLowerL (s : List Char) : List Char := s.map pyLowerChar

def pyLower (s : String) : String := String.mk (pyLowerL s.toList)

def pyUpper (s : String) : String := String.mk (s.toList.map pyUpperChar)

def pyLstripL (s : List Char) : List Char := s.dropWhile isPyWs

def pyRstripL (s : List Char) : List Char := (s.reverse.dropWhile isPyWs).reverse

def pyStripL (s : List Char) : List Char := pyRstripL (pyLstripL s)

def pyLstrip (s : String) : String := String.mk (pyLstripL s.toList)

def pyRstrip (s : String) : String := String.mk (pyRstripL s.toList)

def pyStrip (s : String) : String := String.mk (pyStripL s.toList)

/-- Substring occurrence of `pat` somewhere in `s` (Python `pat in s`). -/
def subOccursL (pat : List Char) : List Char → Bool
  | [] => pat.isPrefixOf []
  | c :: rest => pat.isPrefixOf (c :: rest) || subOccursL pat rest

def subOccurs (pat s : String) : Bool := subOccursL pat.toList s.toList

/-- Does a (non-word) boundary hold against this neighbouring character? -/
def boundaryOk (oc : Option Char) : Bool :=
  match oc with
  | none => true
  | some c => !(isWordChar c)

/-- Occurrence of `pat` with a word boundary on the right only
(regex `pat\b`, where `pat` ends in a word character). -/
def subBoundRightGo (pat : List Char) : List Char → Bool
  | [] => false
  | c :: rest =>
    (match (c :: rest).dropPrefix? pat with
     | some tail => boundaryOk tail.head?
     | none => false)
    || subBoundRightGo pat rest

def subBoundRight (pat s : String) : Bool := subBoundRightGo pat.toList s.toList

/-- Occurrence of `pat` with word boundaries on both sides
(regex `\bpat\b`, where `pat` starts and ends with word characters). -/
def wordMatchGo (pat : List Char) (prev : Option Char) : List Char → Bool
  | [] => false
  | c :: rest =>
    (match (c :: rest).dropPrefix? pat with
     | some tail => boundaryOk prev && boundaryOk tail.head?
     | none => false)
    || wordMatchGo pat (some c) rest

def wordMatch (pat s : String) : Bool := wordMatchGo pat.toList none s.toList

/-- Python `str.splitlines` restricted to `\n`, `\r\n` and `\r` separators. -/
def pySplitlinesGo (acc : List Char) : List Char → List String
  | [] => if acc.isEmpty then [] else [String.mk acc.reverse]
  | '\r' :: '\n' :: rest => String.mk acc.reverse :: pySplitlinesGo [] rest
  | '\n' :: rest => String.mk acc.reverse :: pySplitlinesGo [] rest
  | '\r' :: rest => String.mk acc.reverse :: pySplitlinesGo [] rest
  | c :: rest => pySplitlinesGo (c :: acc) rest

def pySplitlines (s : String) : List String := pySplitlinesGo [] s.toList

/-- `"\n".join`, and friends. -/
def joinSep (sep : String) : List String → String
  | [] => ""
  | [x] => x
  | x :: y :: rest => x ++ sep ++ joinSep sep (y :: rest)

/-- A word-match implies plain substring containment. -/
theorem wordMatchGo_subOccursL (pat : List Char) (prev : Option Char) (s : List Char)
    (h : wordMatchGo pat prev s = true) : subOccursL pat s = true := by
  induction s generalizing prev with
  | nil => simp [wordMatchGo] at h
  | cons c rest ih =>
    simp only [wordMatchGo, Bool.or_eq_true] at h
    rcases h with h | h
    · rcases hdp : (c :: rest).dropPrefix? pat with _ | tail
      · rw [hdp] at h; simp at h
      · have hpref : pat.isPrefixOf (c :: rest) = true := by
          rcases List.dropPrefix?_eq_some_iff.mp hdp with ⟨p, hp, hpe⟩
          have hpe2 : p = pat := by simpa using hpe
          rw [hp, hpe2, List.isPrefixOf_iff_prefix]
          exact ⟨tail, rfl⟩
        simp [subOccursL, hpref]
    · have := ih (some c) h
      simp [subOccursL, this]

theorem wordMatch_subOccurs (pat s : String) (h : wordMatch pat s = true) :
    subOccurs pat s = true :=
  wordMatchGo_subOccursL pat.toList none s.toList h

/-! ## JSON values (model of Python `json`)

Numbers are modelled as integers; float syntax is rejected by the parser
(none of the payloads handled by the orchestrator carry floats). Object
entries keep their textual order; duplicate keys resolve to the last value,
as in Python, via `dGet`. -/

inductive JValue where
  | jnull : JValue
  | jbool (b : Bool) : JValue
  | jnum (n : Int) : JValue
  | jstr (s : String) : JValue
  | jarr (elems : List JValue) : JValue
  | jobj (entries : List (String × JValue)) : JValue

open JValue

mutual

/-- Boolean equality on JSON values. -/
def jeq : JValue → JValue → Bool
  | jnull, jnull => true
  | jbool a, jbool b => a = b
  | jnum a, jnum b => a = b
  | jstr a, jstr b => a = b
  | jarr a, jarr b => jeqList a b
  | jobj a, jobj b => jeqObj a b
  | _, _ => false

def jeqList : List JValue → List JValue → Bool
  | [], [] => true
  | a :: as, b :: bs => jeq a b && jeqList as bs
  | _, _ => false

def jeqObj : List (String × JValue) → List (String × JValue) → Bool
  | [], [] => true
  | (k, a) :: as, (l, b) :: bs => k = l && jeq a b && jeqObj as bs
  | _, _ => false

end

mutual

theorem jeq_iff : ∀ (v w : JValue), jeq v w = true ↔ v = w
  | jnull, w => by cases w <;> simp [jeq]
  | jbool a, w => by cases w <;> simp [jeq]
  | jnum a, w => by cases w <;> simp [jeq]
  | jstr a, w => by cases w <;> simp [jeq]
  | jarr a, w => by
      cases w <;> simp [jeq]
      exact jeqList_iff a _
  | jobj a, w => by
      cases w <;> simp [jeq]
      exact jeqObj_iff a _

theorem jeqList_iff : ∀ (v w : List JValue), jeqList v w = true ↔ v = w
  | [], w => by cases w <;> simp [jeqList]
  | a :: as, w => by
      cases w with
      | nil => simp [jeqList]
      | cons b bs =>
        simp only [jeqList, Bool.and_eq_true, jeq_iff a b, jeqList_iff as bs,
          List.cons.injEq]

theorem jeqObj_iff : ∀ (v w : List (String × JValue)), jeqObj v w = true ↔ v = w
  | [], w => by cases w <;> simp [jeqObj]
  | (k, a) :: as, w => by
      cases w with
      | nil => simp [jeqObj]
      | cons b bs =>
        obtain ⟨l, bv⟩ := b
        simp only [jeqObj, Bool.and_eq_true, decide_eq_true_eq, jeq_iff a bv,
          jeqObj_iff as bs, List.cons.injEq, Prod.mk.injEq]

end

instance : DecidableEq JValue := fun v w =>
  decidable_of_iff (jeq v w = true) (jeq_iff v w)

/-- JSON whitespace accepted by Python `json.loads`. -/
def isJsonWs (c : Char) : Bool :=
  c = ' ' || c = '\t' || c = '\n' || c = '\r'

def skipWs (s : List Char) : List Char := s.dropWhile isJsonWs

def hexVal (c : Char) : Option Nat :=
  if '0' ≤ c && c ≤ '9' then some (c.toNat - 48)
  else if 'a' ≤ c && c ≤ 'f' then some (c.toNat - 87)
  else if 'A' ≤ c && c ≤ 'F' then some (c.toNat - 55)
  else none

def isDigit (c : Char) : Bool := '0' ≤ c && c ≤ '9'

/-- Parse the body of a JSON string literal (after the opening quote). -/
def parseStrBody (acc : List Char) : List Char → Option (String × List Char)
  | [] => none
  | '\\' :: e :: rest =>
    match e with
    | '"' => parseStrBody ('"' :: acc) rest
    | '\\' => parseStrBody ('\\' :: acc) rest
    | '/' => parseStrBody ('/' :: acc) rest
    | 'b' => parseStrBody (Char.ofNat 8 :: acc) rest
    | 'f' => parseStrBody (Char.ofNat 12 :: acc) rest
    | 'n' => parseStrBody ('\n' :: acc) rest
    | 'r' => parseStrBody ('\r' :: acc) rest
    | 't' => parseStrBody ('\t' :: acc) rest
    | 'u' =>
      match rest with
      | a :: b :: c :: d :: rest2 =>
        match hexVal a, hexVal b, hexVal c, hexVal d with
        | some ha, some hb, some hc, some hd =>
          let n := ((ha * 16 + hb) * 16 + hc) * 16 + hd
          if 0xD800 ≤ n && n ≤ 0xDFFF then none
          else parseStrBody (Char.ofNat n :: acc) rest2
        | _, _, _, _ => none
      | _ => none
    | _ => none
  | c :: rest =>
    if c = '"' then some (String.mk acc.reverse, rest)
    else if c.toNat < 0x20 then none
    else parseStrBody (c :: acc) rest

/-- Parse a JSON integer literal (sign, no leading zeros); float syntax
(`.`/`e` continuation) is rejected. -/
def parseNum (s : List Char) : Option (Int × List Char) :=
  let signSplit : Bool × List Char :=
    match s with
    | '-' :: rest => (true, rest)
    | _ => (false, s)
  let neg := signSplit.1
  let s1 := signSplit.2
  match s1 with
  | [] => none
  | c :: rest =>
    if c = '0' then
      match rest.head? with
      | some d => if isDigit d || d = '.' || d = 'e' || d = 'E' then none else some (0, rest)
      | none => some (0, rest)
    else if isDigit c then
      let digits := (c :: rest).takeWhile isDigit
      let rest2 := (c :: rest).dropWhile isDigit
      let n : Int := digits.foldl (fun a d => a * 10 + (Int.ofNat (d.toNat - 48))) 0
      match rest2.head? with
      | some d => if d = '.' || d = 'e' || d = 'E' then none else
          some (if neg then -n else n, rest2)
      | none => some (if neg then -n else n, rest2)
    else none

mutual

/-- Fuel-based JSON value parser; mirrors Python `json.loads` grammar. -/
def parseVal : Nat → List Char → Option (JValue × List Char)
  | 0, _ => none
  | Nat.succ f, s =>
    let s := skipWs s
    match s.head? with
    | none => none
    | some c =>
      if c = '"' then
        match parseStrBody [] s.tail with
        | some (str, rest) => some (jstr str, rest)
        | none => none
      else if c = '[' then
        let t := skipWs s.tail
        if t.head? = some ']' then some (jarr [], t.tail)
        else
          match parseArrGo f t [] with
          | some (xs, rest) => some (jarr xs, rest)
          | none => none
      else if c = lbrace then
        let t := skipWs s.tail
        if t.head? = some rbrace then some (jobj [], t.tail)
        else
          match parseObjGo f t [] with
          | some (kvs, rest) => some (jobj kvs, rest)
          | none => none
      else if c = 't' then
        match s.dropPrefix? "true".toList with
        | some rest => some (jbool true, rest)
        | none => none
      else if c = 'f' then
        match s.dropPrefix? "false".toList with
        | some rest => some (jbool false, rest)
        | none => none
      else if c = 'n' then
        match s.dropPrefix? "null".toList with
        | some rest => some (jnull, rest)
        | none => none
      else
        match parseNum s with
        | some (n, rest) => some (jnum n, rest)
        | none => none

/-- Elements of a JSON array after the opening bracket (nonempty case). -/
def parseArrGo : Nat → List Char → List JValue → Option (List JValue × List Char)
  | 0, _, _ => none
  | Nat.succ f, s, acc =>
    match parseVal f s with
    | none => none
    | some (v, rest) =>
      let rest := skipWs rest
      match rest.head? with
      | some ',' => parseArrGo f rest.tail (v :: acc)
      | some ']' => some ((v :: acc).reverse, rest.tail)
      | _ => none

/-- Entries of a JSON object after the opening brace (nonempty case). -/
def parseObjGo : Nat → List Char → List (String × JValue) →
    Option (List (String × JValue) × List Char)
  | 0, _, _ => none
  | Nat.succ f, s, acc =>
    let s := skipWs s
    match s.head? with
    | some '"' =>
      match parseStrBody [] s.tail with
      | none => none
      | some (key, rest) =>
        let rest := skipWs rest
        match rest.head? with
        | some ':' =>
          match parseVal f rest.tail with
          | none => none
          | some (v, rest2) =>
            let rest2 := skipWs rest2
            match rest2.head? with
            | some ',' => parseObjGo f rest2.tail ((key, v) :: acc)
            | some c2 =>
                if c2 = rbrace then some (((key, v) :: acc).reverse, rest2.tail) else none
            | none => none
        | _ => none
    | _ => none

end

/-- Python `json.loads`: parse one value surrounded only by whitespace. -/
def parseJson (s : String) : Option JValue :=
  let cs := s.toList
  match parseVal (4 * cs.length + 8) cs with
  | some (v, rest) => if (skipWs rest).isEmpty then some v else none
  | none => none

/-- JSON string literal serialisation (escapes quote, backslash and
control characters). -/
def escChar (c : Char) : List Char :=
  if c = '"' then ['\\', '"']
  else if c = '\\' then ['\\', '\\']
  else if c = '\n' then ['\\', 'n']
  else if c = '\r' then ['\\', 'r']
  else if c = '\t' then ['\\', 't']
  else if c.toNat < 0x20 then
    let hex := fun (n : Nat) => if n < 10 then Char.ofNat (48 + n) else Char.ofNat (87 + n)
    ['\\', 'u', '0', '0', hex (c.toNat / 16), hex (c.toNat % 16)]
  else [c]

def dumpStr (s : String) : String :=
  "\"" ++ String.mk (s.toList.flatMap escChar) ++ "\""

mutual

/-- Python `json.dumps` with `ensure_ascii=False` (default separators). -/
def jdumps : JValue → String
  | jnull => "null"
  | jbool true => "true"
  | jbool false => "false"
  | jnum n => toString n
  | jstr s => dumpStr s
  | jarr xs => "[" ++ joinSep ", " (jdumpsList xs) ++ "]"
  | jobj kvs => String.mk [lbrace] ++ joinSep ", " (jdumpsObj kvs) ++ String.mk [rbrace]

def jdumpsList : List JValue → List String
  | [] => []
  | v :: rest => jdumps v :: jdumpsList rest

def jdumpsObj : List (String × JValue) → List String
  | [] => []
  | (k, v) :: rest => (dumpStr k ++ ": " ++ jdumps v) :: jdumpsObj rest

end

/-- Python dictionary lookup over parsed object entries (last value wins on
duplicate keys). -/
def dGet (entries : List (String × JValue)) (k : String) : Option JValue :=
  (entries.reverse.find? (fun kv => kv.1 = k)).map (fun kv => kv.2)

/-- Python truthiness of a JSON value. -/
def jTruthy : JValue → Bool
  | jnull => false
  | jbool b => b
  | jnum n => n ≠ 0
  | jstr s => s ≠ ""
  | jarr xs => !xs.isEmpty
  | jobj kvs => !kvs.isEmpty

mutual

/-- Python `repr` of a decoded JSON value (string escaping approximated:
the payloads the claims touch contain no quotes inside strings). -/
def pyRepr : JValue → String
  | jnull => "None"
  | jbool true => "True"
  | jbool false => "False"
  | jnum n => toString n
  | jstr s => "'" ++ s ++ "'"
  | jarr xs => "[" ++ joinSep ", " (pyReprList xs) ++ "]"
  | jobj kvs => String.mk [lbrace] ++ joinSep ", " (pyReprObj kvs) ++ String.mk [rbrace]

def pyReprList : List JValue → List String
  | [] => []
  | v :: rest => pyRepr v :: pyReprList rest

def pyReprObj : List (String × JValue) → List String
  | [] => []
  | (k, v) :: rest => ("'" ++ k ++ "': " ++ pyRepr v) :: pyReprObj rest

end

/-- Python `str` of a decoded JSON value. -/
def pyJStr : JValue → String
  | jstr s => s
  | v => pyRepr v

/-- Python `str(x).strip().lower() in ("true", "1", "yes")`. -/
def pyBoolWord (s : String) : Bool :=
  let t := pyLower (pyStrip s)
  t = "true" || t = "1" || t = "yes"

/-! ## Keyword Router (`router.py`)

Each regex of the `KEYWORDS` table is embedded as a decidable matcher on the
lowercased task text: `\bw\b` becomes `wordMatch`, `w\b` becomes
`subBoundRight`, alternations of plain words become substring disjunctions. -/

def b2n (b : Bool) : Nat := if b then 1 else 0

def anySub (pats : List String) (t : String) : Bool :=
  pats.any (fun p => subOccurs p t)

/-- Pattern-hit count for the `docker` row of `KEYWORDS`. -/
def dockerHits (t : String) : Nat :=
  b2n (wordMatch "dockerfile" t) + b2n (wordMatch "docker" t) +
    b2n (subBoundRight "container" t)

/-- Pattern-hit count for the `python` row of `KEYWORDS`. -/
def pythonHits (t : String) : Nat :=
  b2n (wordMatch "python" t) + b2n (subBoundRight ".py" t) +
    b2n (anySub ["fastapi", "uvicorn", "poetry", "pip", "pyproject"] t) +
    b2n (anySub ["draw", "circle", "plot", "graph", "visualise", "visualize"] t) +
    b2n (anySub ["рисуй", "рисует", "рисуем", "круг", "график", "построй"] t)

/-- Pattern-hit count for the `rust` row of `KEYWORDS`. -/
def rustHits (t : String) : Nat :=
  b2n (wordMatch "rust" t) + b2n (subBoundRight "cargo" t) + b2n (subBoundRight ".rs" t)

/-- Pattern-hit count for the `bash` row of `KEYWORDS`. -/
def bashHits (t : String) : Nat :=
  b2n (wordMatch "bash" t) + b2n (subBoundRight "shell" t) + b2n (subBoundRight ".sh" t) +
    b2n (anySub ["cron", "rsync", "grep", "sed", "awk"] t) +
    b2n (anySub ["launch", "start", "bootstrap"] t) +
    b2n (anySub ["запуск", "запусти", "старт"] t)

/-- Pattern-hit count for the `linux` row of `KEYWORDS`. -/
def linuxHits (t : String) : Nat :=
  b2n (wordMatch "ubuntu" t) + b2n (wordMatch "arch" t) + b2n (subBoundRight "linux" t) +
    b2n (subBoundRight "apt" t || subBoundRight "pacman" t || subBoundRight "systemd" t)

/-- Pattern-hit count for the `project_architect` row of `KEYWORDS`. -/
def architectHits (t : String) : Nat :=
  b2n (wordMatch "project" t) + b2n (wordMatch "scaffold" t) +
    b2n (wordMatch "structure" t) + b2n (subOccurs "pyproject.toml" t) +
    b2n (subOccurs "readme.md" t) + b2n (wordMatch "module" t) + b2n (wordMatch "src" t) +
    b2n (subOccurs "проект" t) + b2n (subOccurs "структур" t) + b2n (subOccurs "каталог" t)

/-- Iteration order of the `KEYWORDS` dictionary. -/
def routerAgents : List String :=
  ["docker", "python", "rust", "bash", "linux", "project_architect"]

def hitsFor (agent : String) (t : String) : Nat :=
  if agent = "docker" then dockerHits t
  else if agent = "python" then pythonHits t
  else if agent = "rust" then rustHits t
  else if agent = "bash" then bashHits t
  else if agent = "linux" then linuxHits t
  else if agent = "project_architect" then architectHits t
  else 0

/-- The fixed containerization bonus of `Router.classify`. -/
def extraFor (agent : String) (t : String) : Nat :=
  if agent = "docker" && subOccurs "dockerfile" t then 5 else 0

structure Route where
  agent : String
  score : Nat
  reason : String
deriving DecidableEq

/-- One iteration of the best-route selection loop in `Router.classify`. -/
def routeStep (t : String) (best : Option Route) (agent : String) : Option Route :=
  let hits := hitsFor agent t
  if hits ≠ 0 then
    let score := hits + extraFor agent t
    let reason := "matched " ++ toString hits ++ " keywords for " ++ agent
    match best with
    | none => some (Route.mk agent score reason)
    | some b => if score > b.score then some (Route.mk agent score reason) else some b
  else best

/-- `Router.classify` from `router.py`. -/
def classify (task : String) : Route :=
  let t := pyLower task
  match routerAgents.foldl (routeStep t) none with
  | some b => b
  | none => Route.mk "python" 0 "fallback to python"

theorem routeFold_stay (t : String) (as : List String) (b : Route)
    (h : ∀ a ∈ as, hitsFor a t = 0 ∨ hitsFor a t + extraFor a t ≤ b.score) :
    as.foldl (routeStep t) (some b) = some b := by
  induction as with
  | nil => rfl
  | cons a rest ih =>
    have ha := h a (by simp)
    have hrest : ∀ x ∈ rest, hitsFor x t = 0 ∨ hitsFor x t + extraFor x t ≤ b.score :=
      fun x hx => h x (by simp [hx])
    simp only [List.foldl_cons]
    rcases ha with ha | ha
    · simp only [routeStep, ha]
      simpa using ih hrest
    · by_cases hz : hitsFor a t = 0
      · simp only [routeStep, hz]
        simpa using ih hrest
      · have : ¬ (hitsFor a t + extraFor a t > b.score) := by omega
        simp only [routeStep, hz, if_neg, this]
        simp only [ne_eq, hz, not_false_eq_true, if_pos, if_neg this]
        exact ih hrest

theorem routeFold_collect (t : String) (as : List String) (b : Route) :
    (as.foldl (routeStep t) (some b) = some b ∧
      ∀ a ∈ as, hitsFor a t = 0 ∨ hitsFor a t + extraFor a t ≤ b.score) ∨
    (∃ r, as.foldl (routeStep t) (some b) = some r ∧ r.agent ∈ as ∧ b.score < r.score) := by
  induction as generalizing b with
  | nil => left; exact ⟨rfl, by simp⟩
  | cons a rest ih =>
    by_cases hz : hitsFor a t = 0
    · rcases ih b with ⟨heq, hall⟩ | ⟨r, heq, hmem, hlt⟩
      · left
        refine ⟨?_, ?_⟩
        · simp only [List.foldl_cons, routeStep, hz]; simpa using heq
        · intro x hx
          rcases List.mem_cons.mp hx with hx | hx
          · subst hx; exact Or.inl hz
          · exact hall x hx
      · right
        refine ⟨r, ?_, by simp [hmem], hlt⟩
        simp only [List.foldl_cons, routeStep, hz]; simpa using heq
    · by_cases hgt : hitsFor a t + extraFor a t > b.score
      · set b1 : Route := Route.mk a (hitsFor a t + extraFor a t)
          ("matched " ++ toString (hitsFor a t) ++ " keywords for " ++ a) with hb1
        have hstep : routeStep t (some b) a = some b1 := by
          simp only [routeStep, hz, ne_eq, not_false_eq_true, if_pos, hgt, if_pos]
        rcases ih b1 with ⟨heq, _⟩ | ⟨r, heq, hmem, hlt⟩
        · right
          refine ⟨b1, ?_, by simp [hb1], by simp [hb1]; omega⟩
          simp only [List.foldl_cons, hstep]; exact heq
        · right
          refine ⟨r, ?_, by simp [hmem], ?_⟩
          · simp only [List.foldl_cons, hstep]; exact heq
          · have : b1.score = hitsFor a t + extraFor a t := by simp [hb1]
            omega
      · have hle : hitsFor a t + extraFor a t ≤ b.score := by omega
        have hstep : routeStep t (some b) a = some b := by
          simp only [routeStep, hz, ne_eq, not_false_eq_true, if_pos]
          simp [Nat.not_lt.mpr hle, gt_iff_lt]
        rcases ih b with ⟨heq, hall⟩ | ⟨r, heq, hmem, hlt⟩
        · left
          refine ⟨?_, ?_⟩
          · simp only [List.foldl_cons, hstep]; exact heq
          · intro x hx
            rcases List.mem_cons.mp hx with hx | hx
            · subst hx; exact Or.inr hle
            · exact hall x hx
        · right
          refine ⟨r, ?_, by simp [hmem], hlt⟩
          simp only [List.foldl_cons, hstep]; exact heq

/-- The non-docker rows of the keyword table never receive the bonus. -/
theorem extraFor_ne_docker (a : String) (t : String) (h : a ≠ "docker") :
    extraFor a t = 0 := by
  simp [extraFor, h]

/-- C7 counterexample: the task text "sdockerfile" contains the exact
containerization keyword "dockerfile" as a substring, yet `Router.classify`
returns the fallback python route (score 0), not the docker capability:
no docker pattern is word-bounded there, so docker is never scored at all. -/
theorem c7_counterexample :
    subOccurs "dockerfile" (pyLower "sdockerfile") = true ∧
    classify "sdockerfile" = Route.mk "python" 0 "fallback to python" ∧
    (classify "sdockerfile").agent ≠ "docker" := by
  refine ⟨by decide, by decide, by decide⟩

/-- C7 (amended): for any task text containing "dockerfile" as a
word-bounded keyword, docker is scored as its pattern-hit count plus the
fixed bonus 5, and `Router.classify` returns docker exactly when no
competing capability scores strictly higher on the same text (equal scores
keep docker, the first-seen capability in table order); whenever docker is
returned its score is at least every competitor's score. -/
theorem c7_router_docker_amended (task : String)
    (h : wordMatch "dockerfile" (pyLower task) = true) :
    extraFor "docker" (pyLower task) = 5 ∧
    1 ≤ dockerHits (pyLower task) ∧
    ((classify task).agent = "docker" ↔
      (pythonHits (pyLower task) ≤ dockerHits (pyLower task) + 5 ∧
       rustHits (pyLower task) ≤ dockerHits (pyLower task) + 5 ∧
       bashHits (pyLower task) ≤ dockerHits (pyLower task) + 5 ∧
       linuxHits (pyLower task) ≤ dockerHits (pyLower task) + 5 ∧
       architectHits (pyLower task) ≤ dockerHits (pyLower task) + 5)) ∧
    ((classify task).agent = "docker" →
      (classify task).score = dockerHits (pyLower task) + 5 ∧
      ∀ a ∈ routerAgents,
        hitsFor a (pyLower task) + extraFor a (pyLower task) ≤ (classify task).score) := by
  set t := pyLower task with ht
  have hsub : subOccurs "dockerfile" t = true := wordMatch_subOccurs _ _ h
  have hextra : extraFor "docker" t = 5 := by simp [extraFor, hsub]
  have hd1 : 1 ≤ dockerHits t := by
    simp only [dockerHits, b2n, h, if_pos]
    omega
  have hdz : dockerHits t ≠ 0 := by omega
  set d := dockerHits t with hdd
  set rest : List String := ["python", "rust", "bash", "linux", "project_architect"]
    with hrest
  set b0 : Route := Route.mk "docker" (d + 5)
    ("matched " ++ toString d ++ " keywords for " ++ "docker") with hb0
  have hstep0 : routeStep t none "docker" = some b0 := by
    simp only [routeStep, hitsFor, if_pos, hextra]
    simp [hdz, hb0]
  have hfold : routerAgents.foldl (routeStep t) none =
      rest.foldl (routeStep t) (some b0) := by
    show (("docker" :: rest).foldl (routeStep t) none) = _
    simp only [List.foldl_cons, hstep0]
  have hcollect := routeFold_collect t rest b0
  have hclass : ∀ r, rest.foldl (routeStep t) (some b0) = some r → classify task = r := by
    intro r hr
    simp only [classify, ← ht, hfold, hr]
  refine ⟨hextra, hd1, ?_, ?_⟩
  · constructor
    · intro hagent
      rcases hcollect with ⟨heq, hall⟩ | ⟨r, heq, hmem, _⟩
      · have hbnd : ∀ a ∈ rest, hitsFor a t ≤ d + 5 := by
          intro a ha
          have hext : extraFor a t = 0 := by
            apply extraFor_ne_docker
            intro hcq; rw [hcq] at ha; simp [hrest] at ha
          rcases hall a ha with h0 | hle
          · omega
          · rw [hext] at hle
            simpa [hb0] using hle
        refine ⟨?_, ?_, ?_, ?_, ?_⟩
        · simpa [hitsFor] using hbnd "python" (by simp [hrest])
        · simpa [hitsFor] using hbnd "rust" (by simp [hrest])
        · simpa [hitsFor] using hbnd "bash" (by simp [hrest])
        · simpa [hitsFor] using hbnd "linux" (by simp [hrest])
        · simpa [hitsFor] using hbnd "project_architect" (by simp [hrest])
      · exfalso
        have := hclass r heq
        rw [this] at hagent
        rw [hagent] at hmem
        simp [hrest] at hmem
    · intro hbound
      have hstay : rest.foldl (routeStep t) (some b0) = some b0 := by
        apply routeFold_stay
        intro a ha
        right
        have hext : extraFor a t = 0 := by
          apply extraFor_ne_docker
          intro hcq
          rw [hcq] at ha
          simp [hrest] at ha
        rw [hext]
        have hb : b0.score = d + 5 := by simp [hb0]
        rw [hb]
        rcases hbound with ⟨h1, h2, h3, h4, h5⟩
        simp only [hrest, List.mem_cons, List.mem_singleton] at ha
        rcases ha with rfl | rfl | rfl | rfl | rfl | hfalse
        · simpa [hitsFor] using by omega
        · simpa [hitsFor] using by omega
        · simpa [hitsFor] using by omega
        · simpa [hitsFor] using by omega
        · simpa [hitsFor] using by omega
        · simp at hfalse
      rw [hclass b0 hstay, hb0]
  · intro hagent
    rcases hcollect with ⟨heq, hall⟩ | ⟨r, heq, hmem, _⟩
    · have hcb := hclass b0 heq
      rw [hcb]
      have hb : b0.score = d + 5 := by simp [hb0]
      refine ⟨by simp [hb0], ?_⟩
      intro a ha
      simp only [routerAgents, List.mem_cons, List.mem_singleton] at ha
      rcases ha with rfl | ha
      · simp [hitsFor, hextra, hb0]
      · have ha2 : a ∈ rest := by
          simp only [hrest, List.mem_cons, List.mem_singleton]
          rcases ha with rfl | rfl | rfl | rfl | rfl | hf
          · tauto
          · tauto
          · tauto
          · tauto
          · tauto
          · simp at hf
        rcases hall a ha2 with h0 | hle
        · rw [h0]
          have hext : extraFor a t = 0 := by
            apply extraFor_ne_docker
            intro hcq; rw [hcq] at ha2; simp [hrest] at ha2
          simp [hext, hb0]
        · simpa [hb0] using hle
    · exfalso
      have := hclass r heq
      rw [this] at hagent
      rw [hagent] at hmem
      simp [hrest] at hmem

/-- C7 witness: the plain task "dockerfile" routes to docker with the
bonus-boosted score 6. -/
theorem c7_witness :
    (classify "dockerfile").agent = "docker" ∧ (classify "dockerfile").score = 6 := by
  have h := c7_router_docker_amended "dockerfile" (by decide)
  have hag : (classify "dockerfile").agent = "docker" := (h.2.2.1).mpr (by decide)
  refine ⟨hag, ?_⟩
  rw [(h.2.2.2 hag).1]
  decide

/-! ## Language detection (`VerifierAgent._detect_language`)

The regex heuristics `\bdef\s+\w+\(`, `\$\{?1\b` and
`\bfor\s+\w+\s+in\s+\$\{?@\b` are embedded as decidable matchers; the
character classes involved are pairwise disjoint, so maximal-munch scanning
is equivalent to the backtracking regex semantics. -/

/-- `pathlib.Path(filename).suffix`: extension of the final path component
(empty for dot-files and names ending in a dot). -/
def pathSuffix (filename : String) : String :=
  let trimmed := String.mk ((filename.toList.reverse.dropWhile (· = '/')).reverse)
  let name := String.mk ((trimmed.toList.reverse.takeWhile (· ≠ '/')).reverse)
  let cs := name.toList
  match cs.reverse.findIdx? (· = '.') with
  | none => ""
  | some rj =>
    let i := cs.length - 1 - rj
    if 0 < i ∧ i < cs.length - 1 then String.mk (cs.drop i) else ""

/-- Matcher body of `\bdef\s+\w+\(` at the current position. -/
def defCallAt (s : List Char) : Bool :=
  match s.dropPrefix? "def".toList with
  | none => false
  | some r1 =>
    let ws := r1.takeWhile isPyWs
    if ws.isEmpty then false
    else
      let r2 := r1.dropWhile isPyWs
      let wd := r2.takeWhile isWordChar
      if wd.isEmpty then false
      else (r2.dropWhile isWordChar).head? = some '('

def hasDefCallGo (prev : Option Char) : List Char → Bool
  | [] => false
  | c :: rest => (boundaryOk prev && defCallAt (c :: rest)) || hasDefCallGo (some c) rest

/-- `re.search(r"\bdef\s+\w+\(", code)`. -/
def hasDefCall (s : String) : Bool := hasDefCallGo none s.toList

/-- Matcher body of `\$\{?1\b` at the current position. -/
def dollarOneAt (s : List Char) : Bool :=
  match s with
  | '$' :: rest =>
    let direct : Bool :=
      match rest with
      | '1' :: tail => boundaryOk tail.head?
      | _ => false
    let braced : Bool :=
      match rest with
      | b :: '1' :: tail => b = lbrace && boundaryOk tail.head?
      | _ => false
    direct || braced
  | _ => false

def hasDollarOneGo : List Char → Bool
  | [] => false
  | c :: rest => dollarOneAt (c :: rest) || hasDollarOneGo rest

/-- `re.search(r"\$\{?1\b", code)`. -/
def hasDollarOne (s : String) : Bool := hasDollarOneGo s.toList

/-- Matcher body of `\bfor\s+\w+\s+in\s+\$\{?@\b` at the current position. -/
def forInDollarAtHere (s : List Char) : Bool :=
  match s.dropPrefix? "for".toList with
  | none => false
  | some r1 =>
    if (r1.takeWhile isPyWs).isEmpty then false
    else
      let r2 := r1.dropWhile isPyWs
      if (r2.takeWhile isWordChar).isEmpty then false
      else
        let r3 := r2.dropWhile isWordChar
        if (r3.takeWhile isPyWs).isEmpty then false
        else
          let r4 := r3.dropWhile isPyWs
          match r4.dropPrefix? "in".toList with
          | none => false
          | some r5 =>
            if (r5.takeWhile isPyWs).isEmpty then false
            else
              let r6 := r5.dropWhile isPyWs
              match r6 with
              | '$' :: r7 =>
                let direct : Bool :=
                  match r7 with
                  | '@' :: tail =>
                    match tail.head? with
                    | some w => isWordChar w
                    | none => false
                  | _ => false
                let braced : Bool :=
                  match r7 with
                  | b :: '@' :: tail =>
                    b = lbrace &&
                      (match tail.head? with
                       | some w => isWordChar w
                       | none => false)
                  | _ => false
                direct || braced
              | _ => false

def hasForInDollarAtGo (prev : Option Char) : List Char → Bool
  | [] => false
  | c :: rest =>
    (boundaryOk prev && forInDollarAtHere (c :: rest)) || hasForInDollarAtGo (some c) rest

/-- `re.search(r"\bfor\s+\w+\s+in\s+\$\{?@\b", code)`. -/
def hasForInDollarAt (s : String) : Bool := hasForInDollarAtGo none s.toList

/-- `str.startswith`, via kernel-reducible list prefix checking. -/
def pyStartsWith (s pat : String) : Bool := pat.toList.isPrefixOf s.toList

/-- `VerifierAgent._detect_language` from `agents/verifier.py`. -/
def detectLanguage (task code : String) (filename : Option String) : String :=
  let taskLc := pyLower task
  let stripped := pyLstrip code
  let firstLine := (pySplitlines stripped).headD ""
  let extResult : Option String :=
    match filename with
    | none => none
    | some f =>
      if f = "" then none
      else
        let suf := pyLower (pathSuffix f)
        if suf = ".py" then some "python"
        else if suf = ".sh" || suf = ".bash" then some "bash"
        else if suf = ".toml" || suf = ".md" || suf = ".txt" then some "text"
        else none
  match extResult with
  | some r => r
  | none =>
    if pyStartsWith firstLine "#!" && (subOccurs "bash" firstLine || subOccurs "sh" firstLine)
      then "bash"
    else if pyStartsWith firstLine "#!" && subOccurs "python" firstLine then "python"
    else if subOccurs "dockerfile" taskLc then "dockerfile"
    else if pyStartsWith (pyUpper stripped) "FROM " then "dockerfile"
    else if subOccurs "bash" taskLc || subOccurs "shell" taskLc then "bash"
    else if subOccurs "python" taskLc || subOccurs "pythonic" taskLc then "python"
    else if hasDefCall code || subOccurs "import " code then "python"
    else if hasDollarOne code || hasForInDollarAt code then "bash"
    else "unknown"

/-- First applicable rule of a priority list, with a fallback. -/
def firstSome : List (Option String) → String → String
  | [], dflt => dflt
  | some r :: _, _ => r
  | none :: rest, dflt => firstSome rest dflt

/-- Decision rule: filename extension. -/
def extRule (filename : Option String) : Option String :=
  match filename with
  | none => none
  | some f =>
    if f = "" then none
    else
      let suf := pyLower (pathSuffix f)
      if suf = ".py" then some "python"
      else if suf = ".sh" || suf = ".bash" then some "bash"
      else if suf = ".toml" || suf = ".md" || suf = ".txt" then some "text"
      else none

/-- Decision rule: shebang line of the left-stripped code. -/
def shebangRule (code : String) : Option String :=
  let firstLine := (pySplitlines (pyLstrip code)).headD ""
  if pyStartsWith firstLine "#!" && (subOccurs "bash" firstLine || subOccurs "sh" firstLine)
    then some "bash"
  else if pyStartsWith firstLine "#!" && subOccurs "python" firstLine then some "python"
  else none

/-- Decision rule: the "dockerfile" task keyword. -/
def dockerTaskRule (task : String) : Option String :=
  if subOccurs "dockerfile" (pyLower task) then some "dockerfile" else none

/-- Decision rule: code starting with a `FROM ` instruction. -/
def fromCodeRule (code : String) : Option String :=
  if pyStartsWith (pyUpper (pyLstrip code)) "FROM " then some "dockerfile" else none

/-- Decision rule: bash/shell task keywords. -/
def bashTaskRule (task : String) : Option String :=
  if subOccurs "bash" (pyLower task) || subOccurs "shell" (pyLower task) then some "bash"
  else none

/-- Decision rule: python task keywords. -/
def pythonTaskRule (task : String) : Option String :=
  if subOccurs "python" (pyLower task) || subOccurs "pythonic" (pyLower task)
    then some "python"
  else none

/-- Decision rule: python code heuristics (function definitions, imports). -/
def pythonCodeRule (code : String) : Option String :=
  if hasDefCall code || subOccurs "import " code then some "python" else none

/-- Decision rule: bash parameter-expansion code heuristics. -/
def bashCodeRule (code : String) : Option String :=
  if hasDollarOne code || hasForInDollarAt code then some "bash" else none

/-- The decision order the claim describes: every task keyword strictly
before every code heuristic. -/
def detectLanguageClaimed (task code : String) (filename : Option String) : String :=
  firstSome
    [extRule filename, shebangRule code,
     dockerTaskRule task, bashTaskRule task, pythonTaskRule task,
     fromCodeRule code, pythonCodeRule code, bashCodeRule code]
    "unknown"

/-- The decision order the code actually implements: the `FROM ` prefix
heuristic sits between the "dockerfile" keyword and the bash/python task
keywords. -/
def detectLanguageOrdered (task code : String) (filename : Option String) : String :=
  firstSome
    [extRule filename, shebangRule code,
     dockerTaskRule task, fromCodeRule code,
     bashTaskRule task, pythonTaskRule task,
     pythonCodeRule code, bashCodeRule code]
    "unknown"

/-- C8 counterexample: with no filename and no shebang, the task
"write a bash script" carries the bash task keyword, yet for code starting
with `FROM ` the detector answers "dockerfile": the `FROM `-prefix code
heuristic pre-empts the bash task keyword, so a task-keyword match does not
always take precedence over code heuristics. -/
theorem c8_counterexample :
    detectLanguage "write a bash script" "FROM ubuntu" none = "dockerfile" ∧
    detectLanguageClaimed "write a bash script" "FROM ubuntu" none = "bash" ∧
    subOccurs "bash" (pyLower "write a bash script") = true ∧
    ("dockerfile" : String) ≠ "bash" := by
  refine ⟨by decide, by decide, by decide, by decide⟩

/-- C8 (amended): language detection decides by filename extension first,
then the shebang line, then the "dockerfile" task keyword, then the `FROM `
code prefix, then the bash/shell and python task keywords, then the
import/function-definition code heuristics, then the parameter-expansion
code heuristics, falling back to "unknown". -/
theorem c8_detect_language_amended (task code : String) (filename : Option String) :
    detectLanguage task code filename = detectLanguageOrdered task code filename := by
  have hif : ∀ (c : Bool) (r : String) (rest : List (Option String)) (dflt : String),
      firstSome ((if c then some r else none) :: rest) dflt =
        if c then r else firstSome rest dflt := by
    intro c r rest dflt; cases c <;> rfl
  have hif2 : ∀ (c1 c2 : Bool) (r1 r2 : String) (rest : List (Option String)) (dflt : String),
      firstSome ((if c1 then some r1 else if c2 then some r2 else none) :: rest) dflt =
        (if c1 then r1 else if c2 then r2 else firstSome rest dflt) := by
    intro c1 c2 r1 r2 rest dflt; cases c1 <;> cases c2 <;> rfl
  cases filename with
  | none =>
    unfold detectLanguage detectLanguageOrdered extRule shebangRule dockerTaskRule
      fromCodeRule bashTaskRule pythonTaskRule pythonCodeRule bashCodeRule
    simp only [hif2, hif, firstSome]
  | some f =>
    by_cases hf : f = ""
    · subst hf
      unfold detectLanguage detectLanguageOrdered extRule shebangRule dockerTaskRule
        fromCodeRule bashTaskRule pythonTaskRule pythonCodeRule bashCodeRule
      simp only [if_pos rfl, if_true, hif2, hif, firstSome]
    · unfold detectLanguage detectLanguageOrdered extRule shebangRule dockerTaskRule
        fromCodeRule bashTaskRule pythonTaskRule pythonCodeRule bashCodeRule
      simp only [if_neg hf]
      by_cases h1 : pyLower (pathSuffix f) = ".py"
      · simp only [h1, if_pos rfl, if_true, firstSome]
      · simp only [if_neg h1]
        by_cases h2 : (pyLower (pathSuffix f) = ".sh" || pyLower (pathSuffix f) = ".bash") = true
        · simp only [h2, if_true, firstSome]
        · simp only [h2, Bool.false_eq_true, if_false]
          by_cases h3 : (pyLower (pathSuffix f) = ".toml" || pyLower (pathSuffix f) = ".md"
              || pyLower (pathSuffix f) = ".txt") = true
          · simp only [h3, if_true, firstSome]
          · simp only [h3, Bool.false_eq_true, if_false, hif2, hif, firstSome]

/-! ## Verdict construction (`VerifierAgent._build_outcome`)

The generated judgment arrives as raw text; the sandbox results arrive as an
`ExecutionReport`. Deterministic overrides are applied in source order. -/

structure ExecutionReport where
  language : String
  mode : String
  compilation_ok : Bool
  compilation_error : Option String
  stdout : String
  stderr : String
  returncode : Option Int
  invocation : Option String
deriving DecidableEq

structure Outcome where
  ok : Bool
  reason : String
  missing : List JValue
  forbidden : List JValue
  suggested_prompt : String
deriving DecidableEq

/-- `re.search(r"\{.*\}", s, re.DOTALL)`: the greedy match runs from the
first opening brace to the last closing brace after it. -/
def extractBraces (s : String) : Option String :=
  let cs := s.toList
  match cs.findIdx? (· = lbrace), cs.reverse.findIdx? (· = rbrace) with
  | some i, some rj =>
    let j := cs.length - 1 - rj
    if i < j then some (String.mk ((cs.drop i).take (j - i + 1))) else none
  | _, _ => none

/-- The judgment text handed to `json.loads` by `_build_outcome`. -/
def extractedJudgment (raw : String) : String :=
  let text := pyStrip raw
  if text = "" then text else (extractBraces text).getD text

/-- The decoded judgment object, when the text parses to a JSON object. -/
def parsedJudgment (raw : String) : Option (List (String × JValue)) :=
  match parseJson (extractedJudgment raw) with
  | some (jobj entries) => some entries
  | _ => none

/-- `data.get(key) or ""` followed by `str()` coercion. -/
def pyStrField (v : Option JValue) : String :=
  match v with
  | none => ""
  | some v => if jTruthy v then pyJStr v else ""

/-- `data.get(key) or []` followed by list coercion (`[str(x)]` otherwise). -/
def pyListField (v : Option JValue) : List JValue :=
  match v with
  | none => []
  | some v => if jTruthy v then (match v with | jarr xs => xs | w => [jstr (pyJStr w)]) else []

/-- The `ok` coercion: genuine booleans pass through, strings go through the
truthy-word set, anything else through Python truthiness. -/
def okField (v : Option JValue) : Bool :=
  match v with
  | some (jbool b) => b
  | some (jstr s) => pyBoolWord s
  | some v => jTruthy v
  | none => false

/-- `(report.language or "unknown").lower()`. -/
def langOf (report : ExecutionReport) : String :=
  pyLower (if report.language = "" then "unknown" else report.language)

/-- The language label used in override messages. -/
def langLabel (lang : String) : String :=
  if lang = "python" then "Python code"
  else if lang = "bash" then "Bash script"
  else if lang = "project" then "project runtime"
  else "code"

/-- `_append_reason`. -/
def appendReason (reason msg : String) : String :=
  if msg = "" then reason
  else if reason = "" then msg
  else reason ++ "; " ++ msg

/-- `_add_missing`. -/
def addMissing (missing : List JValue) (msg : String) : List JValue :=
  if msg ≠ "" && !(missing.any (fun v => v = jstr msg)) then missing ++ [jstr msg]
  else missing

/-- Mutable verdict state threaded through the overrides. -/
structure VState where
  ok : Bool
  reason : String
  missing : List JValue
deriving DecidableEq

/-- Override: a failing static check forces `ok=False`. -/
def ovCompile (report : ExecutionReport) (lang : String) (st : VState) : VState :=
  if report.compilation_ok then st
  else
    let ce := report.compilation_error.getD ""
    let msg := if ce = "" then "failed static analysis" else ce
    VState.mk false (appendReason st.reason msg)
      (addMissing st.missing ("return syntactically valid " ++ langLabel lang))

/-- Override: for execution-checked languages outside syntax-only mode, a
missing or non-zero exit code forces `ok=False`. -/
def ovExec (report : ExecutionReport) (lang : String) (st : VState) : VState :=
  if report.compilation_ok ∧ (lang = "python" ∨ lang = "bash") ∧ report.mode ≠ "syntax" then
    match report.returncode with
    | none =>
      VState.mk false (appendReason st.reason "script did not complete execution")
        (addMissing st.missing "ensure the script runs to completion and exits with code 0")
    | some rc =>
      if rc ≠ 0 then
        VState.mk false (appendReason st.reason ("script exited with code " ++ toString rc))
          (addMissing st.missing "ensure the script completes successfully")
      else st
  else st

/-- Override: project-runtime exit status. -/
def ovProject (report : ExecutionReport) (lang : String) (st : VState) : VState :=
  if lang = "project" then
    match report.returncode with
    | none => VState.mk false (appendReason st.reason "project execution did not finish") st.missing
    | some rc =>
      if rc ≠ 0 then
        VState.mk false
          (appendReason st.reason ("project command exited with code " ++ toString rc)) st.missing
      else st
  else st

/-- GPU heuristics, first step: flag non-zero exit codes. -/
def ovGpuMissing (report : ExecutionReport) (st : VState) : VState :=
  VState.mk st.ok st.reason
    (match report.returncode with
     | some rc =>
       if rc ≠ 0 then addMissing st.missing "handle unavailable GPU or missing nvidia-smi gracefully"
       else st.missing
     | none => st.missing)

/-- GPU heuristics, second step: an accepted script with empty stdout fails. -/
def ovGpuEmptyOut (report : ExecutionReport) (st : VState) : VState :=
  if st.ok ∧ pyStrip report.stdout = "" then
    VState.mk false (appendReason st.reason "GPU output was empty")
      (addMissing st.missing "print the current GPU usage when available")
  else st

/-- GPU heuristics, third step: a missing `nvidia-smi` binary fails. -/
def ovGpuNoSmi (report : ExecutionReport) (st : VState) : VState :=
  if subOccurs "nvidia-smi" (pyLower report.stderr) ∧
      (subOccurs "not found" (pyLower report.stderr) ∨
        subOccurs "no such file" (pyLower report.stderr)) then
    VState.mk false (appendReason st.reason "nvidia-smi command is unavailable")
      (addMissing st.missing "detect missing nvidia-smi and emit a friendly message without failing")
  else st

/-- Override: GPU-task graceful-degradation heuristics. -/
def ovGpu (report : ExecutionReport) (task : String) (st : VState) : VState :=
  if subOccurs "gpu" (pyLower task) then
    ovGpuNoSmi report (ovGpuEmptyOut report (ovGpuMissing report st))
  else st

/-- The ok/reason/missing fields decoded from the generated judgment (the
conservative defaults when the judgment is unparsable). -/
def judgmentState (raw : String) : VState :=
  match parsedJudgment raw with
  | none => VState.mk false "verifier response not understood" []
  | some data =>
    VState.mk (okField (dGet data "ok")) (pyStrField (dGet data "reason"))
      (pyListField (dGet data "missing"))

/-- The forbidden list decoded from the generated judgment. -/
def judgmentForbidden (raw : String) : List JValue :=
  match parsedJudgment raw with
  | none => []
  | some data => pyListField (dGet data "forbidden")

/-- The suggested instruction decoded from the generated judgment. -/
def judgmentSuggested (raw : String) : String :=
  match parsedJudgment raw with
  | none => "Regenerate the script to satisfy the task."
  | some data => pyStrField (dGet data "suggested_prompt")

/-- All deterministic overrides of `_build_outcome`, in source order. -/
def overridesChain (report : ExecutionReport) (task : String) (st : VState) : VState :=
  ovGpu report task
    (ovProject report (langOf report)
      (ovExec report (langOf report)
        (ovCompile report (langOf report) st)))

/-- `VerifierAgent._build_outcome` from `agents/verifier.py`. -/
def buildOutcome (raw : String) (report : ExecutionReport) (task : String) : Outcome :=
  let st4 := overridesChain report task (judgmentState raw)
  let sp := pyStrip (judgmentSuggested raw)
  Outcome.mk st4.ok (pyStrip st4.reason) st4.missing (judgmentForbidden raw)
    (if sp = "" then "Regenerate the script to satisfy the task." else sp)

/-- Has some non-whitespace character. -/
def hasInk (s : String) : Bool := s.toList.any (fun c => !isPyWs c)

theorem mem_dropWhile_of_not (p : Char → Bool) (l : List Char) (c : Char)
    (hc : c ∈ l) (hp : p c = false) : c ∈ l.dropWhile p := by
  induction l with
  | nil => simp at hc
  | cons a rest ih =>
    by_cases ha : p a = true
    · rw [List.dropWhile_cons_of_pos ha]
      rcases List.mem_cons.mp hc with rfl | hmem
      · rw [ha] at hp; simp at hp
      · exact ih hmem
    · rw [List.dropWhile_cons_of_neg (by simpa using ha)]
      exact hc

theorem pyStrip_ne_empty_of_ink (s : String) (h : hasInk s = true) : pyStrip s ≠ "" := by
  simp only [hasInk, List.any_eq_true, Bool.not_eq_true'] at h
  obtain ⟨c, hc, hcw⟩ := h
  intro heq
  have hdata : pyStripL s.toList = [] := by
    have := congrArg String.toList heq
    simpa [pyStrip] using this
  have h1 : c ∈ pyLstripL s.toList := mem_dropWhile_of_not isPyWs s.toList c hc hcw
  have h2 : c ∈ pyRstripL (pyLstripL s.toList) := by
    unfold pyRstripL
    rw [List.mem_reverse]
    exact mem_dropWhile_of_not isPyWs _ c (by simpa using h1) hcw
  rw [← pyStripL] at h2
  rw [hdata] at h2
  simp at h2

theorem hasInk_appendReason (r m : String) (h : hasInk r = true) :
    hasInk (appendReason r m) = true := by
  unfold appendReason
  have hr : r ≠ "" := by
    intro heq
    rw [heq] at h
    simp [hasInk] at h
  by_cases hm : m = ""
  · simpa [hm] using h
  · rw [if_neg hm, if_neg hr]
    simp only [hasInk, List.any_eq_true] at h ⊢
    obtain ⟨c, hc, hcw⟩ := h
    refine ⟨c, ?_, hcw⟩
    have : (r ++ "; " ++ m).toList = r.toList ++ ("; " ++ m).toList := by
      show (r ++ "; " ++ m).data = r.data ++ ("; " ++ m).data
      rw [String.data_append, String.data_append, String.data_append]
      simp [List.append_assoc]
    rw [this]
    exact List.mem_append_left _ hc

theorem mem_addMissing (l : List JValue) (m : String) (v : JValue) (hv : v ∈ l) :
    v ∈ addMissing l m := by
  unfold addMissing
  split_ifs with h
  · simp [hv]
  · exact hv

theorem self_mem_addMissing (l : List JValue) (m : String) (hm : m ≠ "") :
    jstr m ∈ addMissing l m := by
  unfold addMissing
  by_cases hmem : l.any (fun v => v = jstr m) = true
  · have hv : jstr m ∈ l := by
      simp only [List.any_eq_true, decide_eq_true_eq] at hmem
      obtain ⟨x, hx, hxe⟩ := hmem
      subst hxe
      exact hx
    split_ifs <;> simp [hv]
  · simp [hm, hmem]

theorem ovExec_ok_mono (report : ExecutionReport) (lang : String) (st : VState)
    (h : (ovExec report lang st).ok = true) : st.ok = true := by
  unfold ovExec at h
  split_ifs at h
  · rcases hrc : report.returncode with _ | rc
    · rw [hrc] at h; simp at h
    · rw [hrc] at h
      by_cases hz : rc = 0
      · simpa [hz] using h
      · simp [hz] at h
  · exact h

theorem ovProject_ok_mono (report : ExecutionReport) (lang : String) (st : VState)
    (h : (ovProject report lang st).ok = true) : st.ok = true := by
  unfold ovProject at h
  split_ifs at h
  · rcases hrc : report.returncode with _ | rc
    · rw [hrc] at h; simp at h
    · rw [hrc] at h
      by_cases hz : rc = 0
      · simpa [hz] using h
      · simp [hz] at h
  · exact h

theorem ovGpuEmptyOut_ok_mono (report : ExecutionReport) (st : VState)
    (h : (ovGpuEmptyOut report st).ok = true) : st.ok = true := by
  unfold ovGpuEmptyOut at h
  split_ifs at h
  exact h

theorem ovGpuNoSmi_ok_mono (report : ExecutionReport) (st : VState)
    (h : (ovGpuNoSmi report st).ok = true) : st.ok = true := by
  unfold ovGpuNoSmi at h
  split_ifs at h
  exact h

theorem ovGpu_ok_mono (report : ExecutionReport) (task : String) (st : VState)
    (h : (ovGpu report task st).ok = true) : st.ok = true := by
  unfold ovGpu at h
  split_ifs at h
  · have h2 := ovGpuEmptyOut_ok_mono report _ (ovGpuNoSmi_ok_mono report _ h)
    simpa [ovGpuMissing] using h2
  · exact h

theorem ovExec_missing_mono (report : ExecutionReport) (lang : String) (st : VState)
    (v : JValue) (hv : v ∈ st.missing) : v ∈ (ovExec report lang st).missing := by
  unfold ovExec
  split_ifs
  · rcases report.returncode with _ | rc
    · exact mem_addMissing _ _ _ hv
    · by_cases hz : rc = 0
      · simpa [hz] using hv
      · simpa [hz] using
          mem_addMissing st.missing "ensure the script completes successfully" v hv
  · exact hv

theorem ovProject_missing_mono (report : ExecutionReport) (lang : String) (st : VState)
    (v : JValue) (hv : v ∈ st.missing) : v ∈ (ovProject report lang st).missing := by
  unfold ovProject
  split_ifs
  · rcases report.returncode with _ | rc
    · exact hv
    · by_cases hz : rc = 0 <;> simp [hz, hv]
  · exact hv

theorem ovGpu_missing_mono (report : ExecutionReport) (task : String) (st : VState)
    (v : JValue) (hv : v ∈ st.missing) : v ∈ (ovGpu report task st).missing := by
  unfold ovGpu
  split_ifs
  · have h1 : v ∈ (ovGpuMissing report st).missing := by
      unfold ovGpuMissing
      rcases report.returncode with _ | rc
      · exact hv
      · by_cases hz : rc = 0
        · simpa [hz] using hv
        · simpa [hz] using mem_addMissing st.missing _ v hv
    have h2 : v ∈ (ovGpuEmptyOut report (ovGpuMissing report st)).missing := by
      unfold ovGpuEmptyOut
      split_ifs
      · exact mem_addMissing _ _ _ h1
      · exact h1
    unfold ovGpuNoSmi
    split_ifs
    · exact mem_addMissing _ _ _ h2
    · exact h2
  · exact hv

theorem ovCompile_ok_mono (report : ExecutionReport) (lang : String) (st : VState)
    (h : (ovCompile report lang st).ok = true) : st.ok = true := by
  unfold ovCompile at h
  split_ifs at h
  exact h

theorem hasInk_appendReason_right (r m : String) (h : hasInk m = true) :
    hasInk (appendReason r m) = true := by
  unfold appendReason
  have hm : m ≠ "" := by
    intro heq
    rw [heq] at h
    simp [hasInk] at h
  rw [if_neg hm]
  by_cases hr : r = ""
  · rw [if_pos hr]; exact h
  · rw [if_neg hr]
    simp only [hasInk, List.any_eq_true] at h ⊢
    obtain ⟨c, hc, hcw⟩ := h
    refine ⟨c, ?_, hcw⟩
    show c ∈ (r ++ "; " ++ m).data
    rw [String.data_append]
    exact List.mem_append_right _ hc

theorem retSynValid_ne_empty (t : String) : ("return syntactically valid " ++ t) ≠ "" := by
  intro heq
  have hd := congrArg String.data heq
  rw [String.data_append] at hd
  have h1 : ("return syntactically valid ").data = [] := (List.append_eq_nil.mp hd).1
  exact absurd h1 (by decide)

theorem ovProject_ink (report : ExecutionReport) (lang : String) (st : VState)
    (h : hasInk st.reason = true) : hasInk (ovProject report lang st).reason = true := by
  unfold ovProject
  split_ifs
  · rcases report.returncode with _ | rc
    · exact hasInk_appendReason _ _ h
    · by_cases hz : rc = 0
      · simpa [hz] using h
      · simpa [hz] using hasInk_appendReason st.reason _ h
  · exact h

theorem ovGpu_ink (report : ExecutionReport) (task : String) (st : VState)
    (h : hasInk st.reason = true) : hasInk (ovGpu report task st).reason = true := by
  unfold ovGpu
  split_ifs
  · have h1 : hasInk (ovGpuMissing report st).reason = true := by
      simpa [ovGpuMissing] using h
    have h2 : hasInk (ovGpuEmptyOut report (ovGpuMissing report st)).reason = true := by
      unfold ovGpuEmptyOut
      split_ifs
      · exact hasInk_appendReason _ _ h1
      · exact h1
    unfold ovGpuNoSmi
    split_ifs
    · exact hasInk_appendReason _ _ h2
    · exact h2
  · exact h

theorem chainTail_ok_false (report : ExecutionReport) (task lang : String) (st : VState)
    (h : st.ok = false) : (ovGpu report task (ovProject report lang st)).ok = false := by
  cases hres : (ovGpu report task (ovProject report lang st)).ok
  · rfl
  · exact absurd (ovProject_ok_mono report lang st (ovGpu_ok_mono report task _ hres))
      (by simp [h])

/-- C4: for every ExecutionReport and raw generated judgment, the built
Verdict satisfies the deterministic overrides: a failing static check forces
ok=false and puts a "return syntactically valid ..." item into `missing`;
for execution-checked languages (python/bash) outside syntax-only mode, a
missing or non-zero exit code forces ok=false (with a nonempty reason
whenever the static check had passed); an unparsable judgment starts from
the conservative default, so ok=false — all regardless of what the
generated judgment claimed. -/
theorem c4_verdict_overrides (raw task : String) (report : ExecutionReport) :
    (report.compilation_ok = false →
      (buildOutcome raw report task).ok = false ∧
      jstr ("return syntactically valid " ++ langLabel (langOf report)) ∈
        (buildOutcome raw report task).missing) ∧
    ((langOf report = "python" ∨ langOf report = "bash") →
      report.mode ≠ "syntax" →
      (report.returncode = none ∨ ∃ rc, report.returncode = some rc ∧ rc ≠ 0) →
      (buildOutcome raw report task).ok = false ∧
      (report.compilation_ok = true → (buildOutcome raw report task).reason ≠ "")) ∧
    (parsedJudgment raw = none → (buildOutcome raw report task).ok = false) := by
  set lang := langOf report with hlang
  set st0 := judgmentState raw with hst0
  set st1 := ovCompile report lang st0 with hst1
  have hok : (buildOutcome raw report task).ok =
      (ovGpu report task (ovProject report lang (ovExec report lang st1))).ok := rfl
  have hmiss : (buildOutcome raw report task).missing =
      (ovGpu report task (ovProject report lang (ovExec report lang st1))).missing := rfl
  have hreas : (buildOutcome raw report task).reason =
      pyStrip (ovGpu report task (ovProject report lang (ovExec report lang st1))).reason := rfl
  refine ⟨?_, ?_, ?_⟩
  · intro hcomp
    have hst1eq : st1 = VState.mk false
        (appendReason st0.reason
          (if report.compilation_error.getD "" = "" then "failed static analysis"
           else report.compilation_error.getD ""))
        (addMissing st0.missing ("return syntactically valid " ++ langLabel lang)) := by
      rw [hst1]
      unfold ovCompile
      rw [hcomp]
      simp
    constructor
    · rw [hok]
      apply chainTail_ok_false
      cases hres : (ovExec report lang st1).ok
      · rfl
      · have := ovExec_ok_mono report lang st1 hres
        rw [hst1eq] at this
        simp at this
    · rw [hmiss]
      apply ovGpu_missing_mono
      apply ovProject_missing_mono
      apply ovExec_missing_mono
      rw [hst1eq]
      exact self_mem_addMissing _ _ (retSynValid_ne_empty _)
  · intro hlng hmode hexit
    by_cases hcomp : report.compilation_ok = true
    · have hfire : ovExec report lang st1 = VState.mk false
          (appendReason st1.reason
            (match report.returncode with
             | none => "script did not complete execution"
             | some rc => "script exited with code " ++ toString rc))
          (addMissing st1.missing
            (match report.returncode with
             | none => "ensure the script runs to completion and exits with code 0"
             | some _ => "ensure the script completes successfully")) := by
        unfold ovExec
        rw [if_pos ⟨hcomp, hlng, hmode⟩]
        rcases hexit with hnone | ⟨rc, hrc, hrcnz⟩
        · rw [hnone]
        · rw [hrc]
          simp [hrcnz]
      constructor
      · rw [hok]
        apply chainTail_ok_false
        rw [hfire]
      · intro _
        rw [hreas]
        apply pyStrip_ne_empty_of_ink
        apply ovGpu_ink
        apply ovProject_ink
        rw [hfire]
        apply hasInk_appendReason_right
        rcases report.returncode with _ | rc
        · decide
        · show hasInk ("script exited with code " ++ toString rc) = true
          simp only [hasInk, List.any_eq_true]
          refine ⟨'s', ?_, by decide⟩
          show 's' ∈ ("script exited with code " ++ toString rc).data
          rw [String.data_append]
          apply List.mem_append_left
          decide
    · have hcompf : report.compilation_ok = false := by
        cases hc : report.compilation_ok
        · rfl
        · exact absurd hc hcomp
      constructor
      · rw [hok]
        apply chainTail_ok_false
        cases hres : (ovExec report lang st1).ok
        · rfl
        · have h1 := ovExec_ok_mono report lang st1 hres
          rw [hst1] at h1
          have h2 := ovCompile_ok_mono report lang st0 h1
          have : st1.ok = false := by
            rw [hst1]
            unfold ovCompile
            rw [hcompf]
            simp
          rw [hst1] at this
          rw [h1] at this
          simp at this
      · intro hcontr
        exact absurd hcontr hcomp
  · intro hparse
    have hst0eq : st0 = VState.mk false "verifier response not understood" [] := by
      rw [hst0]
      unfold judgmentState
      rw [hparse]
    rw [hok]
    apply chainTail_ok_false
    cases hres : (ovExec report lang st1).ok
    · rfl
    · have h1 := ovExec_ok_mono report lang st1 hres
      rw [hst1] at h1
      have h2 := ovCompile_ok_mono report lang st0 h1
      rw [hst0eq] at h2
      simp at h2

/-- C4 witness: a failing static check on an unparsable judgment yields a
failing Verdict carrying the syntactic-validity item. -/
theorem c4_witness :
    (ExecutionReport.mk "python" "auto" false (some "SyntaxError: invalid syntax")
        "" "" none none).compilation_ok = false ∧
    (buildOutcome "garbage"
        (ExecutionReport.mk "python" "auto" false (some "SyntaxError: invalid syntax")
          "" "" none none) "task").ok = false ∧
    jstr "return syntactically valid Python code" ∈
      (buildOutcome "garbage"
        (ExecutionReport.mk "python" "auto" false (some "SyntaxError: invalid syntax")
          "" "" none none) "task").missing := by
  have h := c4_verdict_overrides "garbage" "task"
    (ExecutionReport.mk "python" "auto" false (some "SyntaxError: invalid syntax")
      "" "" none none)
  have h1 := h.1 rfl
  refine ⟨rfl, h1.1, ?_⟩
  have he : ("return syntactically valid " ++
      langLabel (langOf (ExecutionReport.mk "python" "auto" false
        (some "SyntaxError: invalid syntax") "" "" none none))) =
      "return syntactically valid Python code" := by decide
  have h2 := h1.2
  rw [he] at h2
  exact h2

/-! ## Finalizer (`MultiAgentOrchestrator._finalize`)

The execution trace is a list of step executions; the backward scans of the
source (`for idx in range(len(executions)-1, -1, -1)`) are embedded as
`span`/`find?` over the reversed list. -/

structure AgentRes where
  text : String
  filename : Option String
deriving DecidableEq

structure PlanStep where
  agent : String
  instruction : String
  reason : String
deriving DecidableEq

structure StepExec where
  step : PlanStep
  result : AgentRes
deriving DecidableEq

/-- `_parse_verdict` nested in `_finalize`: brace extraction plus decode,
empty dict on any failure. -/
def parseVerdict (raw : String) : List (String × JValue) :=
  let txt := pyStrip raw
  let cand := (extractBraces txt).getD txt
  match parseJson cand with
  | some (jobj entries) => entries
  | _ => []

/-- `verdict.get("ok") is True`. -/
def verdictOkIsTrue (raw : String) : Bool :=
  dGet (parseVerdict raw) "ok" = some (jbool true)

/-- `AgentResult(text=..., filename=...)` keeping the filename only when it
is truthy (the ok=true finalize branch). -/
def truthyFilename (f : Option String) : Option String :=
  match f with
  | some s => if s = "" then none else some s
  | none => none

/-- The labelled section built for one step execution in the synthesized
concatenation branch. -/
def sectionOf (e : StepExec) : String :=
  "### " ++ e.step.agent ++ "\nReason: " ++ e.step.reason ++ "\n" ++ "\n" ++
    pyStrip e.result.text ++ "\n"

/-- The non-trivial branch of `_finalize` (more than one step execution, no
project summary). -/
def finalizeScan (task : String) (executions : List StepExec) : AgentRes :=
  match executions.reverse.span (fun e => e.step.agent ≠ "verifier") with
  | (_, vstep :: preRev) =>
    let verifierResult := vstep.result
    match preRev.find? (fun e => e.step.agent ≠ "verifier") with
    | some candExec =>
      let cand := candExec.result
      if verdictOkIsTrue verifierResult.text then
        AgentRes.mk cand.text (truthyFilename cand.filename)
      else
        let vt := pyStrip verifierResult.text
        let combined :=
          if vt = "" then cand.text
          else pyRstrip cand.text ++ "\n\n[verifier]\n" ++ vt
        AgentRes.mk combined cand.filename
    | none => AgentRes.mk verifierResult.text none
  | (_, []) =>
    match executions.reverse.find? (fun e => e.step.agent = "python") with
    | some e => AgentRes.mk e.result.text none
    | none =>
      let sections := executions.map sectionOf
      AgentRes.mk ("Task: " ++ task ++ "\n\n" ++ pyStrip (joinSep "\n" sections)) none

/-- `MultiAgentOrchestrator._finalize` from `orchestrator.py`. -/
def finalize (task : String) (executions : List StepExec)
    (projectSummary : Option AgentRes) : AgentRes :=
  match projectSummary with
  | some s => s
  | none =>
    match executions with
    | [single] => single.result
    | _ => finalizeScan task executions

theorem span_split {α : Type} (p : α → Bool) (l1 : List α) (x : α) (l2 : List α)
    (h1 : ∀ a ∈ l1, p a = true) (hx : p x = false) :
    (l1 ++ x :: l2).span p = (l1, x :: l2) := by
  induction l1 with
  | nil =>
    simp [List.span_eq_take_drop, List.takeWhile_cons, hx, List.dropWhile_cons]
  | cons a t ih =>
    have ha : p a = true := h1 a (by simp)
    have ht : ∀ b ∈ t, p b = true := fun b hb => h1 b (by simp [hb])
    have := ih ht
    simp only [List.span_eq_take_drop] at this ⊢
    simp only [List.cons_append, List.takeWhile_cons, ha, List.dropWhile_cons, if_true]
    simp only [Prod.mk.injEq] at this
    simp [this.1, this.2, ha]

theorem span_all {α : Type} (p : α → Bool) (l : List α) (h : ∀ a ∈ l, p a = true) :
    l.span p = (l, []) := by
  induction l with
  | nil => rfl
  | cons a t ih =>
    have ha : p a = true := h a (by simp)
    have ht := ih (fun b hb => h b (by simp [hb]))
    simp only [List.span_eq_take_drop] at ht ⊢
    simp only [List.takeWhile_cons, ha, List.dropWhile_cons, if_true]
    simp only [Prod.mk.injEq] at ht
    simp [ht.1, ht.2, ha]

theorem find?_split {α : Type} (q : α → Bool) (l1 : List α) (x : α) (l2 : List α)
    (h1 : ∀ a ∈ l1, q a = false) (hx : q x = true) :
    (l1 ++ x :: l2).find? q = some x := by
  induction l1 with
  | nil => simp [List.find?_cons_of_pos, hx]
  | cons a t ih =>
    have ha : q a = false := h1 a (by simp)
    have ht := ih (fun b hb => h1 b (by simp [hb]))
    simp only [List.cons_append]
    simp [List.find?_cons, ha, ht]

theorem finalize_eq_scan (task : String) (execs : List StepExec)
    (summary : Option AgentRes) (hs : summary = none) (hlen : execs.length ≠ 1) :
    finalize task execs summary = finalizeScan task execs := by
  subst hs
  rcases execs with _ | ⟨a, _ | ⟨b, t⟩⟩
  · rfl
  · exact absurd (rfl : ([a] : List StepExec).length = 1) hlen
  · rfl

/-- C1 counterexample: with a trace of a python artifact (text "code \x20\n",
filename "script.py") followed by a failing verifier verdict whose parsed
reason is "bad", finalize does not return the preceding artifact's text with
the reason appended: the artifact text is right-stripped first (so it is not
even a prefix of the result), and the full verifier output, not the parsed
reason alone, is what gets appended. -/
theorem c1_counterexample :
    finalize "t"
      [StepExec.mk (PlanStep.mk "python" "i" "r") (AgentRes.mk "code \n" (some "script.py")),
       StepExec.mk (PlanStep.mk "verifier" "t" "check")
         (AgentRes.mk "\x7b\"ok\": false, \"reason\": \"bad\"\x7d" none)] none =
      AgentRes.mk ("code" ++ "\n\n[verifier]\n" ++ "\x7b\"ok\": false, \"reason\": \"bad\"\x7d")
        (some "script.py") ∧
    ("code \n".toList.isPrefixOf
      (finalize "t"
        [StepExec.mk (PlanStep.mk "python" "i" "r") (AgentRes.mk "code \n" (some "script.py")),
         StepExec.mk (PlanStep.mk "verifier" "t" "check")
           (AgentRes.mk "\x7b\"ok\": false, \"reason\": \"bad\"\x7d" none)] none).text.toList) =
      false := by
  constructor
  · decide
  · decide

/-- C1 (amended): finalize follows this precedence: (1) a project summary is
returned verbatim; (2) a single-step trace returns its artifact; (3)
otherwise, locating the last verifier step and the nearest preceding
non-verifier artifact: if the parsed verdict records the JSON boolean true
under "ok", that artifact's text is returned with its filename kept exactly
when truthy; otherwise the artifact's right-stripped text with the
verifier's full stripped output appended as a "[verifier]" note (the
artifact text unchanged when that output strips to empty), filename kept
verbatim; with no preceding non-verifier artifact the verifier's text
itself; (4) with no verifier step, the last python artifact's text with
filename dropped; (5) otherwise the labelled concatenation of all steps. -/
theorem c1_finalize_amended (task : String) (execs : List StepExec)
    (summary : Option AgentRes) :
    (∀ s, summary = some s → finalize task execs summary = s) ∧
    (∀ e, summary = none → execs = [e] → finalize task execs summary = e.result) ∧
    (summary = none → execs.length ≠ 1 →
      (∀ pre vstep post, execs = pre ++ vstep :: post →
        vstep.step.agent = "verifier" →
        (∀ e ∈ post, e.step.agent ≠ "verifier") →
        ((∀ e ∈ pre, e.step.agent = "verifier") →
          finalize task execs summary = AgentRes.mk vstep.result.text none) ∧
        (∀ vs candE rest, pre.reverse = vs ++ candE :: rest →
          (∀ e ∈ vs, e.step.agent = "verifier") →
          candE.step.agent ≠ "verifier" →
          (verdictOkIsTrue vstep.result.text = true →
            finalize task execs summary =
              AgentRes.mk candE.result.text (truthyFilename candE.result.filename)) ∧
          (verdictOkIsTrue vstep.result.text = false →
            finalize task execs summary =
              AgentRes.mk
                (if pyStrip vstep.result.text = "" then candE.result.text
                 else pyRstrip candE.result.text ++ "\n\n[verifier]\n" ++
                   pyStrip vstep.result.text)
                candE.result.filename))) ∧
      ((∀ e ∈ execs, e.step.agent ≠ "verifier") →
        (∀ pre2 pystep post2, execs = pre2 ++ pystep :: post2 →
          pystep.step.agent = "python" →
          (∀ e ∈ post2, e.step.agent ≠ "python") →
          finalize task execs summary = AgentRes.mk pystep.result.text none) ∧
        ((∀ e ∈ execs, e.step.agent ≠ "python") →
          finalize task execs summary =
            AgentRes.mk ("Task: " ++ task ++ "\n\n" ++
              pyStrip (joinSep "\n" (execs.map sectionOf))) none))) := by
  refine ⟨?_, ?_, ?_⟩
  · intro s hs
    rw [hs]
    rfl
  · intro e hs he
    rw [hs, he]
    rfl
  · intro hs hlen
    have hscan : finalize task execs summary = finalizeScan task execs :=
      finalize_eq_scan task execs summary hs hlen
    constructor
    · intro pre vstep post hsplit hv hpost
      have hrev : execs.reverse = post.reverse ++ vstep :: pre.reverse := by
        rw [hsplit]
        simp [List.reverse_append]
      have hspan : execs.reverse.span (fun e => e.step.agent ≠ "verifier") =
          (post.reverse, vstep :: pre.reverse) := by
        rw [hrev]
        apply span_split
        · intro a ha
          have := hpost a (by simpa using ha)
          simpa using this
        · simpa using hv
      have hbody : finalizeScan task execs =
          (match pre.reverse.find? (fun e => e.step.agent ≠ "verifier") with
           | some candExec =>
             if verdictOkIsTrue vstep.result.text then
               AgentRes.mk candExec.result.text (truthyFilename candExec.result.filename)
             else
               AgentRes.mk
                 (if pyStrip vstep.result.text = "" then candExec.result.text
                  else pyRstrip candExec.result.text ++ "\n\n[verifier]\n" ++
                    pyStrip vstep.result.text)
                 candExec.result.filename
           | none => AgentRes.mk vstep.result.text none) := by
        unfold finalizeScan
        rw [hspan]
      constructor
      · intro hallv
        have hfind : pre.reverse.find? (fun e => e.step.agent ≠ "verifier") = none := by
          rw [List.find?_eq_none]
          intro x hx
          have := hallv x (by simpa using hx)
          simp [this]
        rw [hscan, hbody, hfind]
      · intro vs candE rest hprerev hvs hcand
        have hfind : pre.reverse.find? (fun e => e.step.agent ≠ "verifier") = some candE := by
          rw [hprerev]
          apply find?_split
          · intro a ha
            have := hvs a ha
            simp [this]
          · simpa using hcand
        constructor
        · intro hok
          rw [hscan, hbody, hfind]
          simp [hok]
        · intro hnok
          rw [hscan, hbody, hfind]
          simp [hnok]
    · intro hnov
      have hspan : execs.reverse.span (fun e => e.step.agent ≠ "verifier") =
          (execs.reverse, []) := by
        apply span_all
        intro a ha
        have := hnov a (by simpa using ha)
        simpa using this
      constructor
      · intro pre2 pystep post2 hsplit2 hpy hpost2
        have hrev : execs.reverse = post2.reverse ++ pystep :: pre2.reverse := by
          rw [hsplit2]
          simp [List.reverse_append]
        have hfind : execs.reverse.find? (fun e => e.step.agent = "python") = some pystep := by
          rw [hrev]
          apply find?_split
          · intro a ha
            have := hpost2 a (by simpa using ha)
            simpa using this
          · simpa using hpy
        rw [hscan]
        unfold finalizeScan
        rw [hspan]
        simp only []
        rw [hfind]
      · intro hnop
        have hfind : execs.reverse.find? (fun e => e.step.agent = "python") = none := by
          rw [List.find?_eq_none]
          intro x hx
          have := hnop x (by simpa using hx)
          simpa using this
        rw [hscan]
        unfold finalizeScan
        rw [hspan]
        simp only []
        rw [hfind]

/-- C1 witness: a two-step trace (python artifact "print(1)" named
"script.py", then a verifier step whose recorded verdict has ok=true)
finalizes to the python artifact unchanged. -/
theorem c1_witness :
    finalize "t"
      [StepExec.mk (PlanStep.mk "python" "i" "r") (AgentRes.mk "print(1)" (some "script.py")),
       StepExec.mk (PlanStep.mk "verifier" "t" "check")
         (AgentRes.mk "\x7b\"ok\": true\x7d" none)] none =
      AgentRes.mk "print(1)" (some "script.py") := by
  have h := (c1_finalize_amended "t"
    [StepExec.mk (PlanStep.mk "python" "i" "r") (AgentRes.mk "print(1)" (some "script.py")),
     StepExec.mk (PlanStep.mk "verifier" "t" "check")
       (AgentRes.mk "\x7b\"ok\": true\x7d" none)] none).2.2 rfl (by decide)
  have h2 := (h.1 [StepExec.mk (PlanStep.mk "python" "i" "r")
        (AgentRes.mk "print(1)" (some "script.py"))]
      (StepExec.mk (PlanStep.mk "verifier" "t" "check")
        (AgentRes.mk "\x7b\"ok\": true\x7d" none)) [] rfl rfl (by simp)).2
    [] (StepExec.mk (PlanStep.mk "python" "i" "r") (AgentRes.mk "print(1)" (some "script.py")))
    [] rfl (by simp) (by decide)
  have h3 := h2.1 (by decide)
  rw [h3]
  decide

/-! ## Verifier invocation (`MultiAgentOrchestrator._invoke_verifier`)

The verifier agent's `run` method (sandbox execution plus generated
judgment) is an oracle parameter mapping (task, plan_context, code) to the
agent's output text. -/

/-- The keys of `AGENT_REGISTRY` (from `agents/registry.py`). -/
def registryAgents : List String :=
  ["docker", "python", "rust", "bash", "linux", "verifier", "project_architect", "universal"]

/-- `AGENT_REGISTRY.get("verifier") is not None`. -/
def registryHasVerifier : Bool := registryAgents.contains "verifier"

/-- `MultiAgentOrchestrator._invoke_verifier` from `orchestrator.py`. -/
def invokeVerifier (hasVerifier : Bool) (run : String → String → String → String)
    (task code reason : String) (filename : Option String) (mode : Option String)
    (projectMeta : Option JValue) : Option StepExec :=
  if hasVerifier = false then none
  else if mode.getD "" ≠ "project_runtime" ∧ pyStrip code = "" then none
  else
    let metaEntries : List (String × JValue) :=
      (match mode with
       | some m => if m ≠ "" then [("mode", jstr m)] else []
       | none => []) ++
      (match filename with
       | some f => if f ≠ "" then [("filename", jstr f)] else []
       | none => []) ++
      (match projectMeta with
       | some p => if jTruthy p then [("project", p)] else []
       | none => [])
    let planContext := if metaEntries.isEmpty then "" else jdumps (jobj metaEntries)
    some (StepExec.mk (PlanStep.mk "verifier" task reason)
      (AgentRes.mk (run task planContext code) none))

theorem invokeVerifier_agent (hasVerifier : Bool) (run : String → String → String → String)
    (task code reason : String) (filename : Option String) (mode : Option String)
    (projectMeta : Option JValue) (st : StepExec)
    (h : invokeVerifier hasVerifier run task code reason filename mode projectMeta = some st) :
    st.step.agent = "verifier" := by
  unfold invokeVerifier at h
  split_ifs at h
  injection h with h2
  rw [← h2]

/-- C10: outside project_runtime mode a blank artifact short-circuits the
verifier invocation (nothing is returned, so no StepExecution is appended,
whatever the verifier would have answered); in project_runtime mode the
invocation proceeds even with empty artifact text, producing a verifier
StepExecution. -/
theorem c10_invoke_verifier_blank (run : String → String → String → String)
    (task code reason : String) (filename : Option String) (mode : Option String)
    (projectMeta : Option JValue) :
    (mode.getD "" ≠ "project_runtime" → pyStrip code = "" →
      ∀ hasVerifier, invokeVerifier hasVerifier run task code reason filename mode projectMeta
        = none) ∧
    (∃ st, invokeVerifier registryHasVerifier run task "" reason filename
        (some "project_runtime") projectMeta = some st ∧
      st.step.agent = "verifier" ∧ st.step.instruction = task ∧
      st.step.reason = reason) := by
  constructor
  · intro hmode hblank hasVerifier
    unfold invokeVerifier
    cases hasVerifier
    · simp
    · simp only [Bool.true_eq_false, if_false]
      rw [if_pos ⟨hmode, hblank⟩]
  · unfold invokeVerifier
    have h1 : registryHasVerifier = true := by decide
    rw [h1]
    simp only [Bool.true_eq_false, if_false]
    rw [if_neg (by simp)]
    exact ⟨_, rfl, rfl, rfl, rfl⟩

/-- C10 witness: a whitespace-only artifact in default (auto) mode yields no
verifier step even with the verifier registered. -/
theorem c10_witness :
    invokeVerifier true (fun _ _ c => c) "t" "  " "r" none none none = none :=
  (c10_invoke_verifier_blank (fun _ _ c => c) "t" "  " "r" none none none).1
    (by decide) (by decide) true

/-! ## Refinement loop (`MultiAgentOrchestrator._review_and_refine_python`)

The generative collaborators are oracle parameters: `verifierRun` stands for
the verifier agent's run method, `chainReview` for the plain review chain
used when no verifier is registered, `astError` for `ast.parse` (returning
the syntax-error message, if any), and `pythonRun` for the python agent. -/

structure ReviewCtx where
  task : String
  workspace : String
  originalStep : PlanStep
  maxAttempts : Nat
  reviewerIsDummy : Bool
  verifierAvailable : Bool
  verifierRun : String → String → String → String
  chainReview : String → String → String
  astError : String → Option String
  pythonRun : String → String → String → AgentRes

/-- `dict` assignment (`d[k] = v`): only the final mapping is observable. -/
def dSet (d : List (String × JValue)) (k : String) (v : JValue) :
    List (String × JValue) :=
  (d.filter (fun kv => kv.1 ≠ k)) ++ [(k, v)]

/-- `dict.setdefault(k, v)`. -/
def dSetdefault (d : List (String × JValue)) (k : String) (v : JValue) :
    List (String × JValue) :=
  if dGet d k = none then d ++ [(k, v)] else d

/-- The conservative review-parse failure dictionary. -/
def reviewErrorDict : List (String × JValue) :=
  [("ok", jbool false), ("reason", jstr "review parse error"), ("missing", jarr [])]

/-- The `reasons`-list fallback inside `_parse_review`. -/
def reasonsFallback (d : List (String × JValue)) : List (String × JValue) :=
  match dGet d "reasons" with
  | some (jarr items) =>
    if items.isEmpty then dSetdefault d "reason" (jstr "")
    else dSet d "reason" (jstr (joinSep "; " ((items.filter jTruthy).map pyJStr)))
  | _ => dSetdefault d "reason" (jstr "")

/-- `_parse_review` from `_review_and_refine_python`. -/
def parseReview (raw : String) : List (String × JValue) :=
  let txt := pyStrip raw
  let cand := (extractBraces txt).getD txt
  match parseJson cand with
  | some (jobj data) =>
    if dGet data "ok" = none then reviewErrorDict
    else
      let d1 :=
        match dGet data "missing" with
        | some (jarr _) => data
        | _ => dSet data "missing" (jarr [])
      let d2 :=
        match dGet d1 "reason" with
        | some (jstr s) => if pyStrip s ≠ "" then d1 else reasonsFallback d1
        | _ => reasonsFallback d1
      let d3 :=
        match dGet d2 "suggested_prompt" with
        | none => d2
        | some jnull => d2
        | some (jstr _) => d2
        | some _ => dSet d2 "suggested_prompt" (jstr "")
      let d4 :=
        match dGet d3 "forbidden" with
        | none => d3
        | some jnull => d3
        | some (jarr _) => d3
        | some _ => dSet d3 "forbidden" (jarr [])
      d4
  | _ => reviewErrorDict

/-- `outcome.get("ok", True)` with the loop's truthiness coercion. -/
def outcomeOk (outcome : List (String × JValue)) : Bool :=
  match dGet outcome "ok" with
  | none => true
  | some (jbool b) => b
  | some (jstr s) => pyBoolWord s
  | some v => pyBoolWord (pyJStr v)

/-- `_static_python_audit`, with `ast.parse` as an oracle; the final
component is the `syntax_error` meta flag. -/
def staticPythonAudit (astError : String → Option String) (code : String) :
    Bool × String × List String × Bool :=
  match astError code with
  | none => (true, "", [], false)
  | some msg => (false, "invalid python syntax: " ++ msg, ["return valid Python code"], true)

def gpuRefinementHint : String :=
  "When gathering GPU utilisation, call subprocess.run(" ++
  "['nvidia-smi', '--query-gpu=utilization.gpu', " ++
  "'--format=csv,noheader,nounits'], capture_output=True, text=True, check=False) without shell=True. " ++
  "Gracefully handle FileNotFoundError or non-zero return codes by printing a clear message " ++
  "and exiting cleanly (use sys.exit(0) after the message). " ++
  "Provide one line per GPU with its utilisation or an informative fallback when data is unavailable."

def directoryRefinementHint : String :=
  "List directories via os.scandir(path) filtered with entry.is_dir(). " ++
  "Expose an argparse --path argument defaulting to '.', sort the resulting folder names, " ++
  "and print them one per line."

/-- The refinement instruction built from a failing outcome. -/
def refinedInstruction (ctx : ReviewCtx) (outcome : List (String × JValue)) : String :=
  let taskLc := pyLower ctx.task
  let reasonRaw := dGet outcome "reason"
  let missingItems :=
    match dGet outcome "missing" with
    | some (jarr xs) => xs
    | _ => []
  let missingList := (missingItems.filter jTruthy).map pyJStr
  let feedback :=
    match reasonRaw with
    | some (jstr s) => if pyStrip s ≠ "" then pyStrip s else "does not fulfill the task"
    | _ => "does not fulfill the task"
  let missingSection :=
    if missingList.isEmpty then ""
    else "\nRequired fixes:\n" ++ joinSep "\n" (missingList.map (fun i => "- " ++ i))
  let base :=
    match dGet outcome "suggested_prompt" with
    | some (jstr s) => if pyStrip s ≠ "" then pyStrip s else ctx.originalStep.instruction
    | _ => ctx.originalStep.instruction
  let parts0 : List String :=
    [pyStrip base,
     "Previous attempt did not fulfill the task: " ++ feedback ++ "." ++ missingSection,
     "Regenerate from scratch. Output ONLY Python code (no markdown/prose).",
     "Use only the standard library unless explicitly requested."]
  let reasonLc :=
    match reasonRaw with
    | some (jstr s) => pyLower s
    | _ => ""
  let combinedMissing := pyLower (joinSep " " missingList)
  let needsGpuHint :=
    [taskLc, reasonLc, combinedMissing].any (fun v =>
      subOccurs "gpu" v || subOccurs "nvidia-smi" v || subOccurs "cuda" v)
  let parts1 :=
    if needsGpuHint && !(parts0.any (fun p => subOccurs "nvidia-smi" (pyLower p))) then
      parts0 ++ [gpuRefinementHint]
    else parts0
  let dirKeys := ["directory", "directories", "folder", "folders"]
  let needsDirHint :=
    dirKeys.any (fun k => subOccurs k taskLc) ||
      [reasonLc, combinedMissing].any (fun v => dirKeys.any (fun k => subOccurs k v))
  let parts2 :=
    if needsDirHint && !(parts1.any (fun p => subOccurs "scandir" (pyLower p))) then
      parts1 ++ [directoryRefinementHint]
    else parts1
  joinSep "\n" ((parts2.map pyStrip).filter (fun p => p ≠ "")) ++ "\n"

/-- One attempt's verdict phase: the verifier step appended (if any) and the
outcome dictionary; mirrors the head of each loop iteration. -/
def attemptOutcome (ctx : ReviewCtx) (cur : AgentRes) :
    List StepExec × List (String × JValue) :=
  let audit := staticPythonAudit ctx.astError cur.text
  if ctx.verifierAvailable then
    match invokeVerifier ctx.verifierAvailable ctx.verifierRun ctx.task cur.text
        "code compliance check" none none none with
    | some ve => ([ve], parseReview ve.result.text)
    | none =>
      ([], [("ok", jbool false), ("reason", jstr "verifier unavailable"), ("missing", jarr [])])
  else
    if audit.1 = false then
      ([], [("ok", jbool false), ("reason", jstr audit.2.1),
            ("missing", jarr (audit.2.2.1.map jstr))])
    else ([], parseReview (ctx.chainReview ctx.task cur.text))

/-- The bounded attempt loop (`for attempt_idx in range(1, dynamic_max_attempts + 1)`). -/
def loopGo (ctx : ReviewCtx) : Nat → Nat → AgentRes → List StepExec × AgentRes
  | 0, _, cur => ([], cur)
  | Nat.succ rem, attemptIdx, cur =>
    let so := attemptOutcome ctx cur
    if outcomeOk so.2 then (so.1, cur)
    else
      let instr := refinedInstruction ctx so.2
      let refinedStep := PlanStep.mk "python" instr ("refinement attempt " ++ toString attemptIdx)
      let res := ctx.pythonRun instr refinedStep.reason ctx.workspace
      let rest := loopGo ctx rem (attemptIdx + 1) res
      (so.1 ++ StepExec.mk refinedStep res :: rest.1, rest.2)

/-- `dynamic_max_attempts = 8 if "matplotlib" in task_lc else max_attempts`. -/
def dynamicMaxAttempts (ctx : ReviewCtx) : Nat :=
  if subOccurs "matplotlib" (pyLower ctx.task) then 8 else ctx.maxAttempts

/-- `MultiAgentOrchestrator._review_and_refine_python` from `orchestrator.py`. -/
def reviewAndRefinePython (ctx : ReviewCtx) (lastResult : AgentRes) : List StepExec :=
  if ctx.reviewerIsDummy then []
  else
    let looped := loopGo ctx (dynamicMaxAttempts ctx) 1 lastResult
    let attempts := looped.1
    if ctx.verifierAvailable then
      let needsFinal :=
        match attempts.getLast? with
        | some lastE =>
          if lastE.step.agent = "verifier" then
            !(dGet (parseReview lastE.result.text) "ok" = some (jbool true))
          else true
        | none => true
      if needsFinal then
        match invokeVerifier ctx.verifierAvailable ctx.verifierRun ctx.task looped.2.text
            "final verification" none none none with
        | some ve => attempts ++ [ve]
        | none => attempts
      else attempts
    else attempts

/-- Regeneration steps are the python-agent steps of the loop's output. -/
def regenCount (l : List StepExec) : Nat :=
  (l.filter (fun e => e.step.agent = "python")).length

theorem attemptOutcome_steps_verifier (ctx : ReviewCtx) (cur : AgentRes) :
    ∀ e ∈ (attemptOutcome ctx cur).1, e.step.agent = "verifier" := by
  intro e he
  unfold attemptOutcome at he
  by_cases hav : ctx.verifierAvailable = true
  · rw [if_pos hav] at he
    rcases hinv : invokeVerifier ctx.verifierAvailable ctx.verifierRun ctx.task cur.text
        "code compliance check" none none none with _ | ve
    · rw [hinv] at he; simp at he
    · rw [hinv] at he
      simp only [List.mem_singleton] at he
      subst he
      exact invokeVerifier_agent _ _ _ _ _ _ _ _ _ hinv
  · rw [if_neg hav] at he
    split_ifs at he <;> simp at he

theorem regenCount_append (a b : List StepExec) :
    regenCount (a ++ b) = regenCount a + regenCount b := by
  simp [regenCount, List.filter_append]

theorem attemptOutcome_regen_zero (ctx : ReviewCtx) (cur : AgentRes) :
    regenCount (attemptOutcome ctx cur).1 = 0 := by
  have h := attemptOutcome_steps_verifier ctx cur
  unfold regenCount
  rw [List.length_eq_zero]
  rw [List.filter_eq_nil_iff]
  intro e he
  have := h e he
  simp [this]

theorem loopGo_regen_le (ctx : ReviewCtx) (rem : Nat) :
    ∀ (idx : Nat) (cur : AgentRes), regenCount (loopGo ctx rem idx cur).1 ≤ rem := by
  induction rem with
  | zero => intro idx cur; simp [loopGo, regenCount]
  | succ n ih =>
    intro idx cur
    unfold loopGo
    by_cases hok : outcomeOk (attemptOutcome ctx cur).2 = true
    · simp only [hok, if_true]
      rw [attemptOutcome_regen_zero]
      omega
    · simp only [hok, if_false, Bool.false_eq_true]
      have h1 := attemptOutcome_regen_zero ctx cur
      have h2 := ih (idx + 1)
        (ctx.pythonRun (refinedInstruction ctx (attemptOutcome ctx cur).2)
          ("refinement attempt " ++ toString idx) ctx.workspace)
      rw [regenCount_append]
      rw [h1]
      have h3 : ∀ (st : StepExec) (l : List StepExec), st.step.agent = "python" →
          regenCount (st :: l) = regenCount l + 1 := by
        intro st l hst
        simp [regenCount, List.filter_cons, hst]
      rw [h3 _ _ rfl]
      omega

/-- C2: the refinement loop produces at most `dynamic_max_attempts`
regeneration (python-agent) StepExecutions, where the budget is the fixed
bound 8 when the task mentions matplotlib and the default 6 otherwise; and
as soon as an attempt's Verdict coerces to ok=true, the loop stops at once:
that attempt contributes its verifier step only, the current artifact is
kept, and no regeneration at all is issued from that point. -/
theorem c2_refinement_budget (ctx : ReviewCtx) (lastResult : AgentRes) :
    regenCount (reviewAndRefinePython ctx lastResult) ≤ dynamicMaxAttempts ctx ∧
    (ctx.maxAttempts = 6 →
      dynamicMaxAttempts ctx = if subOccurs "matplotlib" (pyLower ctx.task) then 8 else 6) ∧
    (∀ rem idx cur, outcomeOk (attemptOutcome ctx cur).2 = true →
      loopGo ctx (rem + 1) idx cur = ((attemptOutcome ctx cur).1, cur) ∧
      regenCount (loopGo ctx (rem + 1) idx cur).1 = 0) := by
  refine ⟨?_, ?_, ?_⟩
  · unfold reviewAndRefinePython
    by_cases hd : ctx.reviewerIsDummy = true
    · simp [hd, regenCount]
    · simp only [hd, Bool.false_eq_true, if_false]
      have hloop := loopGo_regen_le ctx (dynamicMaxAttempts ctx) 1 lastResult
      by_cases hav : ctx.verifierAvailable = true
      · simp only [hav, if_true]
        split_ifs
        · rcases hinv : invokeVerifier true ctx.verifierRun ctx.task
              (loopGo ctx (dynamicMaxAttempts ctx) 1 lastResult).2.text
              "final verification" none none none with _ | ve
          · simp only [hinv]
            exact hloop
          · have hva := invokeVerifier_agent _ _ _ _ _ _ _ _ _ hinv
            simp only [hinv]
            rw [regenCount_append]
            have hz : regenCount [ve] = 0 := by simp [regenCount, hva]
            omega
        · exact hloop
      · simp only [hav, Bool.false_eq_true, if_false]
        exact hloop
  · intro h6
    unfold dynamicMaxAttempts
    rw [h6]
  · intro rem idx cur hok
    constructor
    · unfold loopGo
      simp [hok]
    · unfold loopGo
      simp only [hok, if_true]
      exact attemptOutcome_regen_zero ctx cur

/-- C2 witness: with a verifier oracle answering ok=true, the loop stops on
attempt 1 with zero regenerations, inside the default budget. -/
theorem c2_witness :
    regenCount (reviewAndRefinePython
      (ReviewCtx.mk "t" "" (PlanStep.mk "python" "do it" "r") 6 false true
        (fun _ _ _ => "\x7b\"ok\": true\x7d") (fun _ _ => "") (fun _ => none)
        (fun _ _ _ => AgentRes.mk "x" none))
      (AgentRes.mk "print(1)" none)) ≤
      dynamicMaxAttempts
        (ReviewCtx.mk "t" "" (PlanStep.mk "python" "do it" "r") 6 false true
          (fun _ _ _ => "\x7b\"ok\": true\x7d") (fun _ _ => "") (fun _ => none)
          (fun _ _ _ => AgentRes.mk "x" none)) ∧
    regenCount (loopGo
      (ReviewCtx.mk "t" "" (PlanStep.mk "python" "do it" "r") 6 false true
        (fun _ _ _ => "\x7b\"ok\": true\x7d") (fun _ _ => "") (fun _ => none)
        (fun _ _ _ => AgentRes.mk "x" none)) 6 1 (AgentRes.mk "print(1)" none)).1 = 0 := by
  have h := c2_refinement_budget
    (ReviewCtx.mk "t" "" (PlanStep.mk "python" "do it" "r") 6 false true
      (fun _ _ _ => "\x7b\"ok\": true\x7d") (fun _ _ => "") (fun _ => none)
      (fun _ _ _ => AgentRes.mk "x" none))
    (AgentRes.mk "print(1)" none)
  exact ⟨h.1, (h.2.2 5 1 (AgentRes.mk "print(1)" none) (by decide)).2⟩

/-- C9 counterexample: with a registered Verification Engine, the engine is
invoked on every attempt even when the static pre-check fails. Here the
pre-check reports a syntax error, yet the loop's whole output is the
engine's verifier step, and the output changes when only the engine's
response text changes — so the Verdict was taken from the engine, not
synthesized from the pre-check failure. -/
theorem c9_counterexample :
    (staticPythonAudit (fun _ => some "invalid syntax (line 1)") "def f(:").1 = false ∧
    reviewAndRefinePython
        (ReviewCtx.mk "t" "" (PlanStep.mk "python" "i" "r") 6 false true
          (fun _ _ _ => "\x7b\"ok\": true, \"note\": \"A\"\x7d") (fun _ _ => "")
          (fun _ => some "invalid syntax (line 1)") (fun _ _ _ => AgentRes.mk "x" none))
        (AgentRes.mk "def f(:" none) =
      [StepExec.mk (PlanStep.mk "verifier" "t" "code compliance check")
        (AgentRes.mk "\x7b\"ok\": true, \"note\": \"A\"\x7d" none)] ∧
    reviewAndRefinePython
        (ReviewCtx.mk "t" "" (PlanStep.mk "python" "i" "r") 6 false true
          (fun _ _ _ => "\x7b\"ok\": true, \"note\": \"B\"\x7d") (fun _ _ => "")
          (fun _ => some "invalid syntax (line 1)") (fun _ _ _ => AgentRes.mk "x" none))
        (AgentRes.mk "def f(:" none) =
      [StepExec.mk (PlanStep.mk "verifier" "t" "code compliance check")
        (AgentRes.mk "\x7b\"ok\": true, \"note\": \"B\"\x7d" none)] ∧
    reviewAndRefinePython
        (ReviewCtx.mk "t" "" (PlanStep.mk "python" "i" "r") 6 false true
          (fun _ _ _ => "\x7b\"ok\": true, \"note\": \"A\"\x7d") (fun _ _ => "")
          (fun _ => some "invalid syntax (line 1)") (fun _ _ _ => AgentRes.mk "x" none))
        (AgentRes.mk "def f(:" none) ≠
      reviewAndRefinePython
        (ReviewCtx.mk "t" "" (PlanStep.mk "python" "i" "r") 6 false true
          (fun _ _ _ => "\x7b\"ok\": true, \"note\": \"B\"\x7d") (fun _ _ => "")
          (fun _ => some "invalid syntax (line 1)") (fun _ _ _ => AgentRes.mk "x" none))
        (AgentRes.mk "def f(:" none) := by
  refine ⟨by decide, by decide, by decide, by decide⟩

/-- C9 (amended): the static pre-check shortcut exists only when no
Verification Engine is registered: in that case a failing pre-check
synthesizes the attempt's Verdict directly from the failure and the plain
generated review is not consulted (the attempt is independent of the review
chain), while a passing pre-check consults the plain generated review; with
a Verification Engine registered, the engine is invoked for the attempt
regardless of the pre-check result (the attempt is independent of the
pre-check oracle). -/
theorem c9_precheck_amended (ctx : ReviewCtx) (cur : AgentRes) :
    (ctx.verifierAvailable = false →
      (∀ msg, ctx.astError cur.text = some msg →
        attemptOutcome ctx cur =
          ([], [("ok", jbool false), ("reason", jstr ("invalid python syntax: " ++ msg)),
                ("missing", jarr [jstr "return valid Python code"])]) ∧
        (∀ chain1 chain2 : String → String → String,
          attemptOutcome { ctx with chainReview := chain1 } cur =
            attemptOutcome { ctx with chainReview := chain2 } cur)) ∧
      (ctx.astError cur.text = none →
        attemptOutcome ctx cur = ([], parseReview (ctx.chainReview ctx.task cur.text)))) ∧
    (ctx.verifierAvailable = true → pyStrip cur.text ≠ "" →
      attemptOutcome ctx cur =
        ([StepExec.mk (PlanStep.mk "verifier" ctx.task "code compliance check")
            (AgentRes.mk (ctx.verifierRun ctx.task "" cur.text) none)],
         parseReview (ctx.verifierRun ctx.task "" cur.text)) ∧
      (∀ a1 a2 : String → Option String,
        attemptOutcome { ctx with astError := a1 } cur =
          attemptOutcome { ctx with astError := a2 } cur)) := by
  constructor
  · intro hav
    constructor
    · intro msg hmsg
      constructor
      · unfold attemptOutcome
        rw [hav]
        simp only [Bool.false_eq_true, if_false]
        unfold staticPythonAudit
        rw [hmsg]
        simp
      · intro chain1 chain2
        unfold attemptOutcome
        simp only [hav, Bool.false_eq_true, if_false]
        unfold staticPythonAudit
        rw [hmsg]
        simp
    · intro hnone
      unfold attemptOutcome
      rw [hav]
      simp only [Bool.false_eq_true, if_false]
      unfold staticPythonAudit
      rw [hnone]
      simp
  · intro hav hblank
    constructor
    · unfold attemptOutcome
      rw [hav]
      simp only [if_true]
      have hinv : invokeVerifier true ctx.verifierRun ctx.task cur.text
          "code compliance check" none none none =
          some (StepExec.mk (PlanStep.mk "verifier" ctx.task "code compliance check")
            (AgentRes.mk (ctx.verifierRun ctx.task "" cur.text) none)) := by
        unfold invokeVerifier
        simp only [Bool.true_eq_false, if_false]
        rw [if_neg (by simp [hblank])]
        rfl
      rw [hinv]
    · intro a1 a2
      unfold attemptOutcome
      simp only [hav, if_true]

/-- C9 witness: with no engine registered, a failing pre-check produces the
synthesized failing Verdict with no verifier step. -/
theorem c9_witness :
    attemptOutcome
      (ReviewCtx.mk "t" "" (PlanStep.mk "python" "i" "r") 6 false false
        (fun _ _ _ => "") (fun _ _ => "\x7b\"ok\": true\x7d")
        (fun _ => some "unexpected EOF") (fun _ _ _ => AgentRes.mk "x" none))
      (AgentRes.mk "def f(:" none) =
      ([], [("ok", jbool false), ("reason", jstr "invalid python syntax: unexpected EOF"),
            ("missing", jarr [jstr "return valid Python code"])]) :=
  (((c9_precheck_amended
      (ReviewCtx.mk "t" "" (PlanStep.mk "python" "i" "r") 6 false false
        (fun _ _ _ => "") (fun _ _ => "\x7b\"ok\": true\x7d")
        (fun _ => some "unexpected EOF") (fun _ _ _ => AgentRes.mk "x" none))
      (AgentRes.mk "def f(:" none)).1 rfl).1 "unexpected EOF" rfl).1

/-! ## Project root allocation (`MultiAgentOrchestrator._allocate_project_root`)

The base directory's existing entries are a list of names; creating a
directory conses its name. The unbounded `itertools.count(2)` search is
given fuel: the real filesystem is finite, so the source loop terminates. -/

/-- The n-th candidate directory name: `slug`, `slug-2`, `slug-3`, ... -/
def candName (slug : String) : Nat → String
  | 0 => slug
  | Nat.succ k => slug ++ "-" ++ Nat.repr (k + 2)

def allocGo (fs : List String) (slug : String) : Nat → Nat → Option String
  | 0, _ => none
  | Nat.succ fuel, k =>
    if candName slug k ∈ fs then allocGo fs slug fuel (k + 1)
    else some (candName slug k)

/-- `_allocate_project_root`: the returned directory is created (consed). -/
def allocateProjectRoot (slug : String) (fs : List String) (fuel : Nat) :
    Option (String × List String) :=
  (allocGo fs slug fuel 0).map (fun p => (p, p :: fs))

theorem allocGo_spec (fs : List String) (slug : String) :
    ∀ (fuel k0 : Nat) (p : String), allocGo fs slug fuel k0 = some p →
      p ∉ fs ∧ ∃ k, k0 ≤ k ∧ p = candName slug k ∧
        ∀ j, k0 ≤ j → j < k → candName slug j ∈ fs := by
  intro fuel
  induction fuel with
  | zero => intro k0 p h; simp [allocGo] at h
  | succ n ih =>
    intro k0 p h
    unfold allocGo at h
    split_ifs at h with hmem
    · obtain ⟨hnot, k, hk0, hp, hall⟩ := ih (k0 + 1) p h
      refine ⟨hnot, k, by omega, hp, ?_⟩
      intro j hj0 hjk
      by_cases hje : j = k0
      · subst hje; exact hmem
      · exact hall j (by omega) hjk
    · injection h with h2
      subst h2
      exact ⟨hmem, k0, le_refl k0, rfl, fun j hj0 hjk => absurd (lt_of_le_of_lt hj0 hjk)
        (lt_irrefl k0)⟩

/-- C6: allocation tries `slug`, `slug-2`, `slug-3`, ... in order, returns
the first candidate that did not already exist after creating it (so the
returned directory is fresh and exists afterwards), and two sequential
allocations against the same base yield two distinct directories that both
exist afterwards. -/
theorem c6_allocate_project_root (slug : String) (fs : List String) (fuel : Nat) :
    (∀ p fs2, allocateProjectRoot slug fs fuel = some (p, fs2) →
      fs2 = p :: fs ∧ p ∉ fs ∧ p ∈ fs2 ∧
      ∃ k, p = candName slug k ∧ ∀ j < k, candName slug j ∈ fs) ∧
    (∀ p1 fs1 p2 fs2 fuel2,
      allocateProjectRoot slug fs fuel = some (p1, fs1) →
      allocateProjectRoot slug fs1 fuel2 = some (p2, fs2) →
      p1 ≠ p2 ∧ p1 ∈ fs2 ∧ p2 ∈ fs2) := by
  have hbase : ∀ (fsx : List String) (fuelx : Nat) (p : String) (fs2 : List String),
      allocateProjectRoot slug fsx fuelx = some (p, fs2) →
      fs2 = p :: fsx ∧ p ∉ fsx ∧ p ∈ fs2 ∧
        ∃ k, p = candName slug k ∧ ∀ j < k, candName slug j ∈ fsx := by
    intro fsx fuelx p fs2 h
    unfold allocateProjectRoot at h
    rcases hgo : allocGo fsx slug fuelx 0 with _ | q
    · rw [hgo] at h; simp at h
    · rw [hgo] at h
      have h2 : (q, q :: fsx) = (p, fs2) := by simpa using h
      obtain ⟨hq, hfs2⟩ := Prod.mk.inj h2
      subst hq
      obtain ⟨hnot, k, _, hp, hall⟩ := allocGo_spec fsx slug fuelx 0 q hgo
      refine ⟨hfs2.symm, hnot, ?_, k, hp, fun j hj => hall j (Nat.zero_le j) hj⟩
      rw [← hfs2]
      exact List.mem_cons_self q fsx
  constructor
  · intro p fs2 h
    exact hbase fs fuel p fs2 h
  · intro p1 fs1 p2 fs2 fuel2 h1 h2
    obtain ⟨hfs1, hp1not, hp1in, _⟩ := hbase fs fuel p1 fs1 h1
    obtain ⟨hfs2, hp2not, hp2in, _⟩ := hbase fs1 fuel2 p2 fs2 h2
    subst hfs1
    subst hfs2
    refine ⟨?_, ?_, List.mem_cons_self p2 _⟩
    · intro heq
      subst heq
      exact hp2not (List.mem_cons_self p1 fs)
    · exact List.mem_cons_of_mem p2 (List.mem_cons_self p1 fs)

/-- C6 witness: with `proj` and `proj-2` taken, two sequential allocations
return `proj-3` and then `proj-4`, distinct and both existing. -/
theorem c6_witness :
    allocateProjectRoot "proj" ["proj", "proj-2"] 5 =
      some ("proj-3", ["proj-3", "proj", "proj-2"]) ∧
    ("proj-3" : String) ≠ "proj-4" ∧
    "proj-3" ∈ ["proj-4", "proj-3", "proj", "proj-2"] ∧
    "proj-4" ∈ ["proj-4", "proj-3", "proj", "proj-2"] := by
  have h := (c6_allocate_project_root "proj" ["proj", "proj-2"] 5).2
    "proj-3" ["proj-3", "proj", "proj-2"] "proj-4" ["proj-4", "proj-3", "proj", "proj-2"] 5
    (by decide) (by decide)
  exact ⟨by decide, h.1, h.2.1, h.2.2⟩

/-! ## Project file writing (`MultiAgentOrchestrator._write_project_file`)

Paths are component lists under the filesystem root; `Path.resolve` is
lexical normalisation (the allocated project tree contains no symlinks).
The filesystem state carries the existing directories and files; writing to
a path that is an existing directory fails at the OS `open` call
(`IsADirectoryError`) before any content is written. -/

structure ProjectFileSpec where
  path : String
  goal : String
  agent_hint : Option String
  requirements : List String
deriving DecidableEq

/-- `ProjectFileSpec.normalized_path`: backslashes to slashes, stripped. -/
def normalizedPath (f : ProjectFileSpec) : String :=
  pyStrip (String.mk (f.path.toList.map (fun c => if c = '\\' then '/' else c)))

def splitOnCharGo (sep : Char) (acc : List Char) : List Char → List String
  | [] => [String.mk acc.reverse]
  | c :: rest =>
    if c = sep then String.mk acc.reverse :: splitOnCharGo sep [] rest
    else splitOnCharGo sep (c :: acc) rest

/-- Path components of a forward-slash path, dropping empty and `.`
segments as `pathlib` does at parse time. -/
def pathParts (s : String) : List String :=
  (splitOnCharGo '/' [] s.toList).filter (fun c => c ≠ "" ∧ c ≠ ".")

/-- `(root / rel).resolve()`: an absolute `rel` replaces the root, `..`
pops one component, never above the filesystem root. -/
def resolveUnder (root : List String) (rel : String) : List String :=
  let start := if pyStartsWith rel "/" then [] else root
  (pathParts rel).foldl (fun acc c => if c = ".." then acc.dropLast else acc ++ [c]) start

structure FileSys where
  dirs : List (List String)
  files : List (List String × String)
deriving DecidableEq

/-- `mkdir(parents=True, exist_ok=True)`: create every missing prefix. -/
def mkdirAll (dirs : List (List String)) (d : List String) : List (List String) :=
  ((List.range (d.length + 1)).map (fun i => d.take i)).foldl
    (fun acc p => if p ∈ acc then acc else acc ++ [p]) dirs

def pyEndsWith (s pat : String) : Bool := pat.toList.reverse.isPrefixOf s.toList.reverse

/-- `MultiAgentOrchestrator._write_project_file` from `orchestrator.py`:
resolve, containment check (`relative_to` accepts the root itself), ensure
the parent directory, write the content with a single trailing newline. -/
def writeProjectFile (projectRoot : List String) (fileSpec : ProjectFileSpec)
    (content : String) (fs : FileSys) : FileSys × Except String (List String) :=
  let target := resolveUnder projectRoot (normalizedPath fileSpec)
  if ¬ (projectRoot.isPrefixOf target = true) then
    (fs, Except.error ("file path " ++ normalizedPath fileSpec ++ " escapes project root"))
  else
    let fs1 := FileSys.mk (mkdirAll fs.dirs target.dropLast) fs.files
    if target ∈ fs1.dirs then
      (fs1, Except.error "IsADirectoryError")
    else
      let text := if pyEndsWith content "\n" then content else content ++ "\n"
      (FileSys.mk fs1.dirs ((fs1.files.filter (fun kv => kv.1 ≠ target)) ++ [(target, text)]),
       Except.ok target)

theorem foldl_addMissingDirs_of_all_mem (l : List (List String))
    (acc : List (List String)) (h : ∀ p ∈ l, p ∈ acc) :
    l.foldl (fun acc p => if p ∈ acc then acc else acc ++ [p]) acc = acc := by
  induction l with
  | nil => rfl
  | cons a rest ih =>
    have ha : a ∈ acc := h a (by simp)
    simp only [List.foldl_cons, if_pos ha]
    exact ih (fun p hp => h p (by simp [hp]))

theorem mkdirAll_of_closed (dirs : List (List String)) (d : List String)
    (h : ∀ i, d.take i ∈ dirs) : mkdirAll dirs d = dirs := by
  unfold mkdirAll
  apply foldl_addMissingDirs_of_all_mem
  intro p hp
  simp only [List.mem_map, List.mem_range] at hp
  obtain ⟨i, _, hpi⟩ := hp
  rw [← hpi]
  exact h i

/-- C3: when the normalized path resolved against the project root is not
strictly inside that root — it escapes the root, or it is the root itself —
writing the project file errors out and leaves the filesystem unchanged: no
directory is created and no file content is written. (For an escaping path
the containment check raises; for the root itself the parent directories
already exist and the write attempt fails on the existing directory.) -/
theorem c3_write_containment (projectRoot : List String) (fileSpec : ProjectFileSpec)
    (content : String) (fs : FileSys)
    (hroot : projectRoot ∈ fs.dirs)
    (hclosed : ∀ d ∈ fs.dirs, ∀ i, d.take i ∈ fs.dirs)
    (houtside : ¬ (projectRoot.isPrefixOf (resolveUnder projectRoot (normalizedPath fileSpec))
        = true ∧ resolveUnder projectRoot (normalizedPath fileSpec) ≠ projectRoot)) :
    ∃ msg, writeProjectFile projectRoot fileSpec content fs = (fs, Except.error msg) := by
  by_cases hpref : projectRoot.isPrefixOf (resolveUnder projectRoot (normalizedPath fileSpec))
      = true
  · have heq : resolveUnder projectRoot (normalizedPath fileSpec) = projectRoot := by
      by_contra hne
      exact houtside ⟨hpref, hne⟩
    refine ⟨"IsADirectoryError", ?_⟩
    unfold writeProjectFile
    rw [heq]
    rw [if_neg (by simp [List.isPrefixOf_iff_prefix])]
    have hmk : mkdirAll fs.dirs projectRoot.dropLast = fs.dirs := by
      apply mkdirAll_of_closed
      intro i
      have : projectRoot.dropLast.take i = projectRoot.take (min i (projectRoot.length - 1)) := by
        rw [List.dropLast_eq_take, List.take_take]
      rw [this]
      exact hclosed projectRoot hroot _
    rw [hmk]
    rw [if_pos hroot]
  · refine ⟨"file path " ++ normalizedPath fileSpec ++ " escapes project root", ?_⟩
    unfold writeProjectFile
    rw [if_pos (by simpa using hpref)]

/-- C3 witness: a traversal path (`../evil`) resolves outside the allocated
root and the write errors with the filesystem untouched. -/
theorem c3_witness :
    ∃ msg, writeProjectFile ["base", "proj"]
        (ProjectFileSpec.mk "../evil" "" none []) "data"
        (FileSys.mk [[], ["base"], ["base", "proj"]] []) =
      (FileSys.mk [[], ["base"], ["base", "proj"]] [], Except.error msg) :=
  c3_write_containment ["base", "proj"] (ProjectFileSpec.mk "../evil" "" none []) "data"
    (FileSys.mk [[], ["base"], ["base", "proj"]] [])
    (by decide)
    (by
      intro d hd i
      fin_cases hd <;> rcases i with _ | _ | i <;> simp)
    (by decide)

/-! ## Project plan parsing (`agents/project_architect.py`, `project_builder.py`)

The architect's raw output is cleaned (code fences, smart quotes, JSON
comments, trailing commas), decoded through a candidate loop, with a
field-by-field regex fallback; the normalized dictionary is then serialised
and re-parsed by `ProjectSpec.from_json`. -/

/-- `_CURLY_QUOTES` replacement (each entry is a single character). -/
def curlyMap (c : Char) : Char :=
  if c = Char.ofNat 0x201C then '"'
  else if c = Char.ofNat 0x201D then '"'
  else if c = Char.ofNat 0x201E then '"'
  else if c = Char.ofNat 0x201F then '"'
  else if c = Char.ofNat 0x2019 then Char.ofNat 39
  else if c = Char.ofNat 0x2018 then Char.ofNat 39
  else c

def replaceCurlyQuotes (s : String) : String := String.mk (s.toList.map curlyMap)

/-- Index of the closing fence line (scanning from the last line down to
line 1). -/
def findLastFence (lines : List String) : Option Nat :=
  ((List.range lines.length).reverse.filter (fun i => decide (1 ≤ i))).find?
    (fun i => pyStartsWith (lines.getD i "") "```")

/-- `_strip_code_fences`. -/
def stripCodeFences (text : String) : String :=
  if pyStartsWith text "```" then
    let lines := pySplitlines text
    match findLastFence lines with
    | some closing => pyStrip (joinSep "\n" ((lines.drop 1).take (closing - 1)))
    | none => pyStrip (joinSep "\n" (lines.drop 1))
  else text

mutual

/-- `re.sub(r"//.*?$", "", text, flags=re.MULTILINE)`. -/
def stripLineCommentsGo : List Char → List Char
  | [] => []
  | '/' :: '/' :: rest => dropToNl rest
  | c :: rest => c :: stripLineCommentsGo rest

def dropToNl : List Char → List Char
  | [] => []
  | '\n' :: rest => '\n' :: stripLineCommentsGo rest
  | _ :: rest => dropToNl rest

end

def dropToClose : List Char → Option (List Char)
  | [] => none
  | '*' :: '/' :: rest => some rest
  | _ :: rest => dropToClose rest

/-- `re.sub(r"/\*.*?\*/", "", text, flags=re.DOTALL)` (lazy: each `/*`
closes at the nearest following `*/`). -/
def stripBlockCommentsGo : Nat → List Char → List Char
  | 0, cs => cs
  | Nat.succ f, cs =>
    match cs with
    | [] => []
    | '/' :: '*' :: rest =>
      match dropToClose rest with
      | some rest2 => stripBlockCommentsGo f rest2
      | none => '/' :: '*' :: rest
    | c :: rest => c :: stripBlockCommentsGo f rest

/-- `_strip_json_comments`: line comments first, then block comments. -/
def stripJsonCommentsStr (s : String) : String :=
  let afterLine := stripLineCommentsGo s.toList
  String.mk (stripBlockCommentsGo (afterLine.length + 1) afterLine)

/-- One `pattern.sub` pass of `,(\s*[}\]])` elimination. -/
def rtcPass : Nat → List Char → List Char
  | 0, cs => cs
  | Nat.succ f, cs =>
    match cs with
    | [] => []
    | ',' :: rest =>
      let ws := rest.takeWhile isPyWs
      let rest2 := rest.dropWhile isPyWs
      match rest2 with
      | c :: rest3 =>
        if c = rbrace ∨ c = ']' then ws ++ c :: rtcPass f rest3
        else ',' :: rtcPass f rest
      | [] => ',' :: rtcPass f rest
    | c :: rest => c :: rtcPass f rest

def rtcOnce (s : String) : String := String.mk (rtcPass (s.toList.length + 1) s.toList)

def rtcFix : Nat → String → String
  | 0, s => s
  | Nat.succ f, s =>
    let s2 := rtcOnce s
    if s2 = s then s else rtcFix f s2

/-- `_remove_trailing_commas`: iterate the substitution to a fixpoint. -/
def removeTrailingCommas (s : String) : String := rtcFix (s.length + 2) s

/-- Match `"key"\s*:\s*"([^"]*)"` at the current position, returning the
captured group; `allowEmpty` distinguishes the `+` and `*` patterns. -/
def keyStrAt (key : List Char) (allowEmpty : Bool) (cs : List Char) : Option String :=
  match cs.dropPrefix? ('"' :: (key ++ ['"'])) with
  | none => none
  | some r1 =>
    match r1.dropWhile isPyWs with
    | ':' :: r3 =>
      match r3.dropWhile isPyWs with
      | '"' :: r5 =>
        let body := r5.takeWhile (fun c => c ≠ '"')
        match r5.dropWhile (fun c => c ≠ '"') with
        | '"' :: _ => if !allowEmpty && body.isEmpty then none else some (String.mk body)
        | _ => none
      | _ => none
    | _ => none

def findKeyStrGo (key : List Char) (allowEmpty : Bool) : List Char → Option String
  | [] => keyStrAt key allowEmpty []
  | c :: rest =>
    match keyStrAt key allowEmpty (c :: rest) with
    | some v => some v
    | none => findKeyStrGo key allowEmpty rest

/-- `_extract_str`: first regex match of the quoted field, stripped; empty
results count as absent. -/
def extractStr (key : String) (allowEmpty : Bool) (s : String) : String :=
  match findKeyStrGo key.toList allowEmpty s.toList with
  | some v => pyStrip v
  | none => ""

/-- Match `"key"\s*:\s*\[(.*?)\]` at the current position (lazy body up
to the nearest closing bracket). -/
def keyArrAt (key : List Char) (cs : List Char) : Option (List Char) :=
  match cs.dropPrefix? ('"' :: (key ++ ['"'])) with
  | none => none
  | some r1 =>
    match r1.dropWhile isPyWs with
    | ':' :: r3 =>
      match r3.dropWhile isPyWs with
      | '[' :: r5 =>
        let body := r5.takeWhile (fun c => c ≠ ']')
        match r5.dropWhile (fun c => c ≠ ']') with
        | ']' :: _ => some body
        | _ => none
      | _ => none
    | _ => none

def findKeyArrGo (key : List Char) : List Char → Option (List Char)
  | [] => keyArrAt key []
  | c :: rest =>
    match keyArrAt key (c :: rest) with
    | some v => some v
    | none => findKeyArrGo key rest

/-- `re.findall(r'"([^"]+)"', block)`. -/
def quotedStrings : Nat → List Char → List String
  | 0, _ => []
  | Nat.succ _, [] => []
  | Nat.succ f, '"' :: rest =>
    let body := rest.takeWhile (fun c => c ≠ '"')
    (match rest.dropWhile (fun c => c ≠ '"') with
     | '"' :: rest2 =>
       if body.isEmpty then quotedStrings f rest
       else String.mk body :: quotedStrings f rest2
     | _ => [])
  | Nat.succ f, _ :: rest => quotedStrings f rest

/-- The quoted non-blank items of a bracketed list field, stripped. -/
def extractQuotedList (key : String) (s : String) : List String :=
  match findKeyArrGo key.toList s.toList with
  | some body => ((quotedStrings (body.length + 1) body).map pyStrip).filter (fun i => i ≠ "")
  | none => []

/-- Match `"path"\s*:\s*"[^"]+"` at the current position (the mandatory
part of the file-block regex), returning the remainder. -/
def pathLitAt (cs : List Char) : Option (List Char) :=
  match cs.dropPrefix? ("\"path\"".toList) with
  | none => none
  | some r1 =>
    match r1.dropWhile isPyWs with
    | ':' :: r3 =>
      match r3.dropWhile isPyWs with
      | '"' :: r5 =>
        let body := r5.takeWhile (fun c => c ≠ '"')
        if body.isEmpty then none
        else
          match r5.dropWhile (fun c => c ≠ '"') with
          | '"' :: r6 => some r6
          | _ => none
      | _ => none
    | _ => none

/-- Lazy `[^{}]*?` extension until the path literal matches. -/
def seg1Go : List Char → Option (List Char)
  | [] => pathLitAt []
  | c :: rest =>
    match pathLitAt (c :: rest) with
    | some r => some r
    | none => if c = lbrace || c = rbrace then none else seg1Go rest

/-- Lazy `[^{}]*?\}` tail. -/
def seg2Go : List Char → Option (List Char)
  | [] => none
  | c :: rest =>
    if c = rbrace then some rest
    else if c = lbrace then none
    else seg2Go rest

/-- One candidate match of the file-block regex starting at `cs`. -/
def fileBlockAt (cs : List Char) : Option (List Char) :=
  match cs with
  | c :: rest => if c = lbrace then (seg1Go rest).bind seg2Go else none
  | [] => none

/-- `re.finditer` over the file-block regex: scan left to right, resuming
after each match. -/
def finditerFileBlocks : Nat → List Char → List String
  | 0, _ => []
  | Nat.succ f, cs =>
    match cs with
    | [] => []
    | _ :: rest =>
      match fileBlockAt cs with
      | some rem => String.mk (cs.take (cs.length - rem.length)) :: finditerFileBlocks f rem
      | none => finditerFileBlocks f rest

/-- The regex-extracted fields of one file block. -/
def extractFileFields (block : String) : Option JValue :=
  let path := extractStr "path" false block
  if path = "" then none
  else
    let goal := extractStr "goal" true block
    let agent := extractStr "agent" true block
    let reqs := extractQuotedList "requirements" block
    some (jobj
      ([("path", jstr path)] ++
       (if goal ≠ "" then [("goal", jstr goal)] else []) ++
       (if agent ≠ "" then [("agent", jstr agent)] else []) ++
       (if !reqs.isEmpty then [("requirements", jarr (reqs.map jstr))] else [])))

/-- One file entry of `_extract_plan_regex`: strict decode of the cleaned
block when possible, else field-by-field extraction. -/
def extractFileEntry (block : String) : Option JValue :=
  let cleaned := removeTrailingCommas (stripJsonCommentsStr (replaceCurlyQuotes block))
  match parseJson cleaned with
  | some (jobj data) =>
    if jTruthy ((dGet data "path").getD jnull) then some (jobj data)
    else extractFileFields block
  | _ => extractFileFields block

/-- `_extract_plan_regex` from `agents/project_architect.py`. -/
def extractPlanRegex (text : String) : List (String × JValue) :=
  let name := extractStr "project_name" false text
  let language := extractStr "language" false text
  let summary := extractStr "summary" true text
  let tasks := extractQuotedList "tasks" text
  let blocks := finditerFileBlocks (text.length + 1) text.toList
  let files := blocks.filterMap extractFileEntry
  (if name ≠ "" then [("project_name", jstr name)] else []) ++
  (if language ≠ "" then [("language", jstr language)] else []) ++
  (if summary ≠ "" then [("summary", jstr summary)] else []) ++
  (if !tasks.isEmpty then [("tasks", jarr (tasks.map jstr))] else []) ++
  (if !files.isEmpty then [("files", jarr files)] else [])

def isObj : JValue → Bool
  | jobj _ => true
  | _ => false

/-- The candidate loop of `_normalize`: Python's `data` variable threads
through; decoding to a dict breaks, other successful decodes are carried
along (possibly overwritten). -/
def candLoop : List String → Option JValue → Option JValue
  | [], data => data
  | c0 :: rest, data =>
    let c := pyStrip c0
    if c = "" then candLoop rest data
    else
      match parseJson c with
      | some v => if isObj v then some v else candLoop rest (some v)
      | none =>
        match extractBraces c with
        | none => candLoop rest data
        | some m =>
          match parseJson (removeTrailingCommas m) with
          | some v2 => if isObj v2 then some v2 else candLoop rest (some v2)
          | none => candLoop rest data

/-- The cleanup candidates tried by `_normalize`, in order. -/
def archCandidates (primary : String) : List String :=
  (if primary ≠ "" then [primary] else []) ++
    [stripJsonCommentsStr primary, removeTrailingCommas primary,
     removeTrailingCommas (stripJsonCommentsStr primary)]

/-- `data.get(key) or dflt` followed by `str(...)`. -/
def pyOrStr (v : Option JValue) (dflt : String) : String :=
  match v with
  | none => dflt
  | some v => if jTruthy v then pyJStr v else dflt

/-- `[str(x).strip() for x in (v or []) if str(x).strip()]` (list values;
non-list truthy values are not produced by the decoders). -/
def strListField (v : Option JValue) : List String :=
  match v with
  | some (jarr xs) => ((xs.map pyJStr).map pyStrip).filter (fun i => i ≠ "")
  | _ => []

/-- The files normalization plus `setdefault` tail of `_normalize`. -/
def archFinalize (raw : String) (data : Option JValue) : List (String × JValue) :=
  let d0 : List (String × JValue) :=
    match data with
    | some (jobj entries) =>
      if jTruthy ((dGet entries "files").getD jnull) then entries
      else
        let fb := extractPlanRegex raw
        if fb.isEmpty then entries else fb
    | _ =>
      let fb := extractPlanRegex raw
      if fb.isEmpty then [] else fb
  let d1 :=
    match dGet d0 "files" with
    | some (jarr items) =>
      dSet d0 "files" (jarr (items.filterMap (fun item =>
        match item with
        | jobj f =>
          let path := pyStrip (pyOrStr (dGet f "path") "")
          if path = "" then none
          else some (jobj
            [("path", jstr path),
             ("goal", jstr (pyStrip (pyOrStr (dGet f "goal") ""))),
             ("agent", jstr (pyStrip (pyOrStr (dGet f "agent") ""))),
             ("requirements", jarr ((strListField (dGet f "requirements")).map jstr))])
        | _ => none)))
    | _ => dSet d0 "files" (jarr [])
  dSetdefault (dSetdefault (dSetdefault (dSetdefault d1
    "project_name" (jstr "project")) "language" (jstr "python")) "summary" (jstr ""))
    "tasks" (jarr [])

/-- `ProjectArchitectAgent._normalize` from `agents/project_architect.py`. -/
def archNormalize (text : String) : List (String × JValue) :=
  let raw := pyStrip text
  if raw = "" then []
  else
    let base := replaceCurlyQuotes (stripCodeFences raw)
    let primary := pyStrip base
    archFinalize raw (candLoop (archCandidates primary) none)

/-- `ProjectArchitectAgent.postprocess`: the normalized dictionary is
re-serialised (indentation does not affect the decoded value). -/
def archPostprocess (text : String) : String := jdumps (jobj (archNormalize text))

structure ProjectSpec where
  project_name : String
  summary : String
  language : String
  tasks : List String
  files : List ProjectFileSpec
  raw : JValue
deriving DecidableEq

/-- `ProjectSpec.from_json` from `project_builder.py`. -/
def projectSpecFromJson (payload : String) : Except String ProjectSpec :=
  match parseJson payload with
  | none => Except.error "project plan is not valid JSON"
  | some v =>
    match v with
    | jobj data =>
      let name0 := pyStrip (pyOrStr (dGet data "project_name") "project")
      let name := if name0 = "" then "project" else name0
      let summary := pyStrip (pyOrStr (dGet data "summary") "")
      let language0 := pyLower (pyStrip (pyOrStr (dGet data "language") ""))
      let language := if language0 = "" then "unknown" else language0
      let tasks := strListField (dGet data "tasks")
      let filesRaw :=
        match dGet data "files" with
        | some (jarr xs) => xs
        | _ => []
      let files := filesRaw.filterMap (fun item =>
        match item with
        | jobj f =>
          let path := pyStrip (pyOrStr (dGet f "path") "")
          if path = "" then none
          else
            let goal := pyStrip (pyOrStr (dGet f "goal") "")
            let hint0 := pyLower (pyStrip (pyOrStr (dGet f "agent") ""))
            let hint := if hint0 = "" then none else some hint0
            some (ProjectFileSpec.mk path goal hint (strListField (dGet f "requirements")))
        | _ => none)
      Except.ok (ProjectSpec.mk name summary language tasks files (jobj data))
    | _ => Except.error "project plan JSON must be an object"

/-- The full pipeline from the architect's raw output to the parsed spec. -/
def specOfArchitectOutput (text : String) : Except String ProjectSpec :=
  projectSpecFromJson (archPostprocess text)

theorem dropWhile_idem (p : Char → Bool) (l : List Char) :
    (l.dropWhile p).dropWhile p = l.dropWhile p := by
  induction l with
  | nil => rfl
  | cons a t ih =>
    by_cases ha : p a = true
    · rw [List.dropWhile_cons_of_pos ha]
      exact ih
    · rw [List.dropWhile_cons_of_neg (by simpa using ha),
        List.dropWhile_cons_of_neg (by simpa using ha)]

theorem head_dropWhile_false (p : Char → Bool) (l : List Char) (a : Char)
    (h : (l.dropWhile p).head? = some a) : p a = false := by
  induction l with
  | nil => simp at h
  | cons b t ih =>
    by_cases hb : p b = true
    · rw [List.dropWhile_cons_of_pos hb] at h
      exact ih h
    · rw [List.dropWhile_cons_of_neg (by simpa using hb)] at h
      simp only [List.head?_cons, Option.some.injEq] at h
      subst h
      simpa using hb

theorem pyRstripL_prefix (l : List Char) : pyRstripL l <+: l := by
  unfold pyRstripL
  have h1 : l.reverse.dropWhile isPyWs <:+ l.reverse := List.dropWhile_suffix isPyWs
  have h2 := (@List.reverse_prefix Char (l.reverse.dropWhile isPyWs) l.reverse).mpr h1
  rwa [List.reverse_reverse] at h2

theorem pyRstripL_idem (l : List Char) : pyRstripL (pyRstripL l) = pyRstripL l := by
  unfold pyRstripL
  rw [List.reverse_reverse, dropWhile_idem]

theorem pyLstripL_of_rstrip_clean (m : List Char)
    (hm : ∀ a, m.head? = some a → isPyWs a = false) :
    pyLstripL (pyRstripL m) = pyRstripL m := by
  rcases hr : pyRstripL m with _ | ⟨c, t⟩
  · rfl
  · have hpre := pyRstripL_prefix m
    rw [hr] at hpre
    obtain ⟨tail, htail⟩ := hpre
    have hhead : m.head? = some c := by
      rw [← htail]
      rfl
    have hc := hm c hhead
    unfold pyLstripL
    rw [List.dropWhile_cons_of_neg (by simpa using hc)]

theorem pyStripL_idem (l : List Char) : pyStripL (pyStripL l) = pyStripL l := by
  unfold pyStripL
  have hm : ∀ a, (pyLstripL l).head? = some a → isPyWs a = false := by
    intro a ha
    exact head_dropWhile_false isPyWs l a ha
  rw [pyLstripL_of_rstrip_clean (pyLstripL l) hm, pyRstripL_idem]

theorem pyStrip_idem (s : String) : pyStrip (pyStrip s) = pyStrip s := by
  unfold pyStrip
  rw [show (String.mk (pyStripL s.toList)).toList = pyStripL s.toList from rfl,
    pyStripL_idem]

theorem stripCodeFences_id (s : String) (h : pyStartsWith s "```" = false) :
    stripCodeFences s = s := by
  unfold stripCodeFences
  rw [h]
  simp

theorem replaceCurlyQuotes_id (s : String) (h : ∀ c ∈ s.toList, curlyMap c = c) :
    replaceCurlyQuotes s = s := by
  unfold replaceCurlyQuotes
  have h2 : s.toList.map curlyMap = s.toList := by
    calc s.toList.map curlyMap = s.toList.map id := List.map_congr_left h
    _ = s.toList := List.map_id s.toList
  rw [h2]
  rfl

theorem parseJson_empty : parseJson "" = none := rfl

/-- Strict structured decode: a primary candidate that already parses to an
object breaks the candidate loop at once. -/
theorem candLoop_first_obj (primary : String) (rest : List String)
    (d : List (String × JValue))
    (hstrip : pyStrip primary = primary)
    (hparse : parseJson primary = some (jobj d)) :
    candLoop (primary :: rest) none = some (jobj d) := by
  have hne : primary ≠ "" := by
    intro he
    rw [he, parseJson_empty] at hparse
    exact Option.noConfusion hparse
  unfold candLoop
  rw [hstrip, if_neg hne, hparse]
  rfl

/-- A strict JSON project plan. -/
def strictDemoPlan : String :=
  "\x7b\"project_name\": \"App\", \"language\": \"Python\", \"summary\": \"demo\", \"tasks\": [\"run\"], \"files\": [\x7b\"path\": \"m.py\", \"goal\": \"g\", \"requirements\": [\"r\"]\x7d]\x7d"

/-- The same plan with a line comment and a block comment. -/
def demoPlanWithComments : String :=
  "\x7b // top\n\"project_name\": \"App\", /* b */ \"language\": \"Python\", \"summary\": \"demo\", \"tasks\": [\"run\"], \"files\": [\x7b\"path\": \"m.py\", \"goal\": \"g\", \"requirements\": [\"r\"]\x7d]\x7d"

/-- The same plan with trailing commas in every container. -/
def demoPlanWithTrailingCommas : String :=
  "\x7b\"project_name\": \"App\", \"language\": \"Python\", \"summary\": \"demo\", \"tasks\": [\"run\",], \"files\": [\x7b\"path\": \"m.py\", \"goal\": \"g\", \"requirements\": [\"r\"],\x7d,],\x7d"

/-- The same plan with smart (curly) quotes around the first field. -/
def demoPlanWithCurlyQuotes : String :=
  "\x7b“project_name”: “App”, \"language\": \"Python\", \"summary\": \"demo\", \"tasks\": [\"run\"], \"files\": [\x7b\"path\": \"m.py\", \"goal\": \"g\", \"requirements\": [\"r\"]\x7d]\x7d"

/-- The same plan wrapped in a markdown code fence. -/
def demoPlanWithFences : String := "```json\n" ++ strictDemoPlan ++ "\n```"

/-- A prose-embedded plan that defeats strict decoding (no outer object),
exercising the field-by-field regex fallback. -/
def demoPlanProse : String :=
  "Plan: \"project_name\": \"Tool\"\n\"language\": \"python\"\n\"summary\": \"CLI tool\"\n\"tasks\": [\"do x\"]\n\"files\": [ \x7b\"path\": \"main.py\", \"goal\": \"entry\", \"requirements\": [\"req1\"]\x7d ]"

/-- The normalized dictionary shared by all decorated variants. -/
def demoRawDict : JValue :=
  jobj [("project_name", jstr "App"), ("language", jstr "Python"),
        ("summary", jstr "demo"), ("tasks", jarr [jstr "run"]),
        ("files", jarr [jobj [("path", jstr "m.py"), ("goal", jstr "g"),
          ("agent", jstr ""), ("requirements", jarr [jstr "r"])]])]

/-- The decoded ProjectSpec shared by all decorated variants. -/
def demoSpecResult : Except String ProjectSpec :=
  Except.ok (ProjectSpec.mk "App" "demo" "python" ["run"]
    [ProjectFileSpec.mk "m.py" "g" none ["r"]] demoRawDict)

/-- The normalized dictionary recovered by the regex fallback. -/
def proseRawDict : JValue :=
  jobj [("project_name", jstr "Tool"), ("language", jstr "python"),
        ("summary", jstr "CLI tool"), ("tasks", jarr [jstr "do x"]),
        ("files", jarr [jobj [("path", jstr "main.py"), ("goal", jstr "entry"),
          ("agent", jstr ""), ("requirements", jarr [jstr "req1"])]])]

set_option maxRecDepth 40000 in
/-- C5: parsing a ProjectSpec from the architect's raw output succeeds and
yields the same spec as parsing the equivalent strict JSON when the raw
output carries JSON comments, trailing commas, smart quotes or code-fence
wrapping; when strict structured decoding still fails, the field-by-field
regex fallback recovers the project name, language, summary, tasks and file
entries; and a raw output that already is a strict JSON object (no fence,
no curly quotes) is decoded directly by the candidate loop. -/
theorem c5_project_plan_parsing :
    specOfArchitectOutput strictDemoPlan = demoSpecResult ∧
    specOfArchitectOutput demoPlanWithComments = specOfArchitectOutput strictDemoPlan ∧
    specOfArchitectOutput demoPlanWithTrailingCommas = specOfArchitectOutput strictDemoPlan ∧
    specOfArchitectOutput demoPlanWithCurlyQuotes = specOfArchitectOutput strictDemoPlan ∧
    specOfArchitectOutput demoPlanWithFences = specOfArchitectOutput strictDemoPlan ∧
    (specOfArchitectOutput demoPlanProse =
      Except.ok (ProjectSpec.mk "Tool" "CLI tool" "python" ["do x"]
        [ProjectFileSpec.mk "main.py" "entry" none ["req1"]] proseRawDict)) ∧
    (∀ (raw : String) (d : List (String × JValue)),
      parseJson (pyStrip raw) = some (jobj d) →
      pyStartsWith (pyStrip raw) "```" = false →
      (∀ c ∈ (pyStrip raw).toList, curlyMap c = c) →
      archNormalize raw = archFinalize (pyStrip raw) (some (jobj d))) := by
  have hs : specOfArchitectOutput strictDemoPlan = demoSpecResult := rfl
  have hcm : specOfArchitectOutput demoPlanWithComments = demoSpecResult := rfl
  have htc : specOfArchitectOutput demoPlanWithTrailingCommas = demoSpecResult := rfl
  have hcq : specOfArchitectOutput demoPlanWithCurlyQuotes = demoSpecResult := rfl
  have hfc : specOfArchitectOutput demoPlanWithFences = demoSpecResult := rfl
  refine ⟨hs, hcm.trans hs.symm, htc.trans hs.symm, hcq.trans hs.symm,
    hfc.trans hs.symm, rfl, ?_⟩
  intro raw d hparse hfence hcurly
  have hne : pyStrip raw ≠ "" := by
    intro he
    rw [he, parseJson_empty] at hparse
    exact Option.noConfusion hparse
  show (if pyStrip raw = "" then [] else
    archFinalize (pyStrip raw)
      (candLoop (archCandidates
        (pyStrip (replaceCurlyQuotes (stripCodeFences (pyStrip raw))))) none)) =
    archFinalize (pyStrip raw) (some (jobj d))
  rw [if_neg hne, stripCodeFences_id _ hfence, replaceCurlyQuotes_id _ hcurly,
    pyStrip_idem]
  have hcand : archCandidates (pyStrip raw) =
      pyStrip raw :: [stripJsonCommentsStr (pyStrip raw),
        removeTrailingCommas (pyStrip raw),
        removeTrailingCommas (stripJsonCommentsStr (pyStrip raw))] := by
    unfold archCandidates
    rw [if_pos hne]
    rfl
  rw [hcand, candLoop_first_obj (pyStrip raw) _ d (pyStrip_idem raw) hparse]

set_option maxRecDepth 40000 in
/-- C5 witness: the strict demo plan satisfies the direct-decode clause. -/
theorem c5_witness :
    archNormalize strictDemoPlan =
      archFinalize (pyStrip strictDemoPlan)
        (some (jobj [("project_name", jstr "App"), ("language", jstr "Python"),
          ("summary", jstr "demo"), ("tasks", jarr [jstr "run"]),
          ("files", jarr [jobj [("path", jstr "m.py"), ("goal", jstr "g"),
            ("requirements", jarr [jstr "r"])]])])) :=
  c5_project_plan_parsing.2.2.2.2.2.2 strictDemoPlan _ (by decide) (by decide) (by decide)

end Devopsys
